import Mathlib

/-!
# Verification of the `IngressStateSimulator` world simulator and its ingestion pipeline

This development shallowly embeds the game-state simulator of the cheap-ice
repository (`ingressSimulator.js`: class `IngressStateSimulator`) together with
the relevant projections of the history store (`#parseIngressData` /
`#saveToDB`).

Modelling conventions:
* JavaScript strings (portal identifiers, action verbs, link keys) are
  modelled as `List Char`; JavaScript string operations are mirrored exactly:
  `String.prototype.includes` is substring containment (`jsIncludes`),
  `split('-')` is `splitDash`, default `Array.sort` of two strings uses
  code-unit lexicographic order (`keyLE`).  Short enum-like strings that are
  only ever compared for equality (`action.type`, team names) are kept as
  Lean `String`.
* JavaScript numbers holding coordinates are modelled as exact integer
  micro-degrees (`Int`): the feed delivers `latE6`/`lngE6` integers and the
  only arithmetic the simulator performs on coordinates is the cross product
  `cross`, whose sign (the only thing ever inspected) is invariant under the
  uniform `10 ^ 6` scaling from degrees to micro-degrees.  The spec declares
  exact-sign planar semantics, so float rounding is outside the model.
  Resonator counters are `Nat`.
* A JavaScript `Map` is an insertion-ordered association list (`mfind`,
  `mset`), a `Set` of strings is an insertion-ordered duplicate-free list.
* Fallible lookups return `Option`; `undefined` propagating through JS code
  (e.g. `split('-')[1]` of a dash-free key) is modelled as `none`.
-/

namespace CheapIce

/-- JavaScript `String.prototype.startsWith`: `jsStartsWith needle hay` is
true when `hay` starts with `needle`. -/
def jsStartsWith : List Char → List Char → Bool
  | [], _ => true
  | _ :: _, [] => false
  | a :: as, b :: bs => a = b && jsStartsWith as bs

/-- JavaScript `String.prototype.includes`: `jsIncludes needle hay` is true
when `needle` occurs as a contiguous substring of `hay`. -/
def jsIncludes (needle : List Char) : List Char → Bool
  | [] => jsStartsWith needle []
  | c :: rest => jsStartsWith needle (c :: rest) || jsIncludes needle rest

/-- JavaScript `split('-')`: splits a string on every dash, keeping empty
pieces, never returning an empty list. -/
def splitDash : List Char → List (List Char)
  | [] => [[]]
  | c :: rest =>
    if c = '-' then [] :: splitDash rest
    else (c :: (splitDash rest).headD []) :: (splitDash rest).tail

/-- Code-unit lexicographic comparison used by JavaScript's default
`Array.prototype.sort` comparator on strings (`a ≤ b`). -/
def keyLE : List Char → List Char → Bool
  | [], _ => true
  | _ :: _, [] => false
  | a :: as, b :: bs =>
    if a < b then true
    else if b < a then false
    else keyLE as bs

/-- `getLinkKey(id1, id2)` from the simulator: `[id1, id2].sort().join('-')`. -/
def getLinkKey (id1 id2 : List Char) : List Char :=
  if keyLE id1 id2 then id1 ++ '-' :: id2 else id2 ++ '-' :: id1

/-- First-match lookup in an insertion-ordered association list (JS `Map.get`). -/
def mfind {α : Type} : List (List Char × α) → List Char → Option α
  | [], _ => none
  | (k, v) :: rest, key => if k = key then some v else mfind rest key

/-- JS `Map.set`: replace the value at an existing key in place, otherwise
append the new binding at the end. -/
def mset {α : Type} : List (List Char × α) → List Char → α → List (List Char × α)
  | [], key, val => [(key, val)]
  | (k, v) :: rest, key, val =>
    if k = key then (key, val) :: rest else (k, v) :: mset rest key val

/-- JS `Map.has`. -/
def mhas {α : Type} (m : List (List Char × α)) (key : List Char) : Bool :=
  (mfind m key).isSome

/-- Runtime portal state held in `this.portalStates`: the constructor stores
`{ id: p.id, lat: p.lat, lng: p.lng, team: 'NEUTRAL' }` and `setPortalTeam`
later mutates only `team` (to a faction string, or to `null` when the JS
`team` variable is null, modelled as `none`). -/
structure PState where
  id : List Char
  lat : Int
  lng : Int
  team : Option String
deriving DecidableEq, Repr

/-- Field record as pushed by `detectAndCreateFields` after `delete winner.area`:
three portal identifiers and the owning team.  The auxiliary `area` value is
absent from this type by construction. -/
structure Field where
  p1 : List Char
  p2 : List Char
  p3 : List Char
  team : Option String
deriving DecidableEq, Repr

/-- Field candidate before `delete winner.area` strips the selection key. -/
structure FieldC where
  p1 : List Char
  p2 : List Char
  p3 : List Char
  team : Option String
  area : Int
deriving DecidableEq, Repr

/-- Dropping the auxiliary `area` (the JS `delete winner.area`). -/
def FieldC.strip (c : FieldC) : Field :=
  ⟨c.p1, c.p2, c.p3, c.team⟩

/-- The full mutable state of an `IngressStateSimulator` instance. -/
structure SimState where
  portalStates : List (List Char × PState)
  links : List (List Char)
  fields : List Field
  portalResonators : List (List Char × Nat)
deriving DecidableEq, Repr

/-- A normalized action row (the shape produced by `#parseIngressData` and
persisted in the `actions` table).  `team` is the extra property consulted by
`processAction` line `action.team === 'RES'`; rows read back from the
database never carry it (`none`). -/
structure Action where
  id : String
  timestamp : Int
  type : String
  action : List Char
  portal_id : Option (List Char)
  target_portal_id : Option (List Char)
  team : Option String
deriving DecidableEq, Repr

/-- Portal catalog row as consumed by the simulator constructor (it reads
only `p.id`, `p.lat`, `p.lng`). -/
structure PortalIn where
  id : List Char
  lat : Int
  lng : Int
deriving DecidableEq, Repr

/-- The constructor: every catalog portal starts NEUTRAL with 0 resonators. -/
def initSim (portalsList : List PortalIn) : SimState :=
  { portalStates :=
      portalsList.foldl (fun m p => mset m p.id ⟨p.id, p.lat, p.lng, some "NEUTRAL"⟩) []
    links := []
    fields := []
    portalResonators := portalsList.foldl (fun m p => mset m p.id 0) [] }

/-- `calculateCrossProduct(a, b, c)`. -/
def calculateCrossProduct (a b c : PState) : Int :=
  (b.lng - a.lng) * (c.lat - a.lat) - (b.lat - a.lat) * (c.lng - a.lng)

/-- `doLinksIntersect(a, b, c, d)`: false on any shared endpoint identifier,
otherwise strict opposite signs on both segments. -/
def doLinksIntersect (a b c d : PState) : Bool :=
  if a.id = c.id ∨ a.id = d.id ∨ b.id = c.id ∨ b.id = d.id then false
  else
    let ccw1 := calculateCrossProduct a b c
    let ccw2 := calculateCrossProduct a b d
    let ccw3 := calculateCrossProduct c d a
    let ccw4 := calculateCrossProduct c d b
    decide (ccw1 * ccw2 < 0) && decide (ccw3 * ccw4 < 0)

/-- `setPortalTeam(id, team)`: mutates the stored portal's `team` in place,
returning `true` exactly when the value changed. -/
def setPortalTeam (st : SimState) (id : List Char) (team : Option String) :
    SimState × Bool :=
  match mfind st.portalStates id with
  | some p =>
    if p.team ≠ team then
      ({ st with portalStates := mset st.portalStates id { p with team := team } }, true)
    else (st, false)
  | none => (st, false)

/-- Whether a field record uses the unordered edge `{l1, l2}` (the three
edge checks of `deleteLink`). -/
def usesEdge (f : Field) (l1 l2 : List Char) : Bool :=
  (f.p1 = l1 && f.p2 = l2) || (f.p1 = l2 && f.p2 = l1) ||
  (f.p2 = l1 && f.p3 = l2) || (f.p2 = l2 && f.p3 = l1) ||
  (f.p3 = l1 && f.p1 = l2) || (f.p3 = l2 && f.p1 = l1)

/-- `deleteLink(linkKey)`: remove the link and every field using the edge
`linkKey.split('-')` names.  When the key contains no dash, `l2` is
`undefined` in JS and no field matches (modelled by the second match arm). -/
def deleteLink (st : SimState) (linkKey : List Char) : SimState × Bool :=
  if linkKey ∈ st.links then
    let links' := st.links.filter (fun k => k ≠ linkKey)
    let fields' :=
      match splitDash linkKey with
      | l1 :: l2 :: _ => st.fields.filter (fun f => !usesEdge f l1 l2)
      | _ => st.fields
    ({ st with links := links', fields := fields' }, true)
  else (st, false)

/-- One `deleteLink` call inside a `forEach` that accumulates a `changed`
flag (the loop bodies of `removeLinksAttachedTo` and
`cleanupCrossedLinks`). -/
def delStep (acc : SimState × Bool) (key : List Char) : SimState × Bool :=
  let r := deleteLink acc.1 key
  (r.1, acc.2 || r.2)

/-- `removeLinksAttachedTo(portalId)`: delete every link whose key *contains*
the identifier (JS `String.prototype.includes`), then scrub any residual
field touching the portal. -/
def removeLinksAttachedTo (st : SimState) (portalId : List Char) : SimState × Bool :=
  let linksToRemove := st.links.filter (fun k => jsIncludes portalId k)
  let r1 := linksToRemove.foldl delStep (st, false)
  let fields2 := r1.1.fields.filter
    (fun f => !(f.p1 = portalId || f.p2 = portalId || f.p3 = portalId))
  (({ r1.1 with fields := fields2 }),
    r1.2 || decide (fields2.length < r1.1.fields.length))

/-- The sweep's decision for one existing key: split it on `-`, look the two
parts up in the portal map, and test proper intersection; an unknown or
missing part skips the key. -/
def sweepDeletes (ps : List (List Char × PState)) (p1 p2 : PState) (key : List Char) :
    Bool :=
  match splitDash key with
  | i3 :: rest =>
    match mfind ps i3, (match rest with | i4 :: _ => mfind ps i4 | [] => none) with
    | some p3, some p4 => doLinksIntersect p1 p2 p3 p4
    | _, _ => false
  | [] => false

/-- One iteration of the `cleanupCrossedLinks` sweep over an existing key. -/
def cleanupStep (p1 p2 : PState) (acc : SimState × Bool) (existingLinkKey : List Char) :
    SimState × Bool :=
  if sweepDeletes acc.1.portalStates p1 p2 existingLinkKey then delStep acc existingLinkKey
  else acc

/-- `cleanupCrossedLinks(id1, id2)`: iterate over a copy of the current link
set and delete every existing link properly crossing segment `id1`–`id2`. -/
def cleanupCrossedLinks (st : SimState) (id1 id2 : List Char) : SimState × Bool :=
  match mfind st.portalStates id1, mfind st.portalStates id2 with
  | some p1, some p2 => st.links.foldl (cleanupStep p1 p2) (st, false)
  | _, _ => (st, false)

/-- The pushed neighbour for one link key in `getNeighbors`:
`parts[0] === id ? parts[1] : parts[0]`, where a missing `parts[1]` is the
JS `undefined` (`none`). -/
def otherEnd (id key : List Char) : Option (List Char) :=
  match splitDash key with
  | [] => none
  | h :: t => if h = id then t.head? else some h

/-- `getNeighbors(id)`: walk the link set in insertion order and collect the
other end of every key containing `id` as a substring. -/
def getNeighbors (st : SimState) (id : List Char) : List (Option (List Char)) :=
  st.links.foldl
    (fun acc k => if jsIncludes id k then acc ++ [otherEnd id k] else acc) []

/-- The first element of maximal `area`.  This models the JS
`candidates.sort((a, b) => b.area - a.area)` (a *stable* descending sort,
ES2019) followed by taking `candidates[0]`: on ties the earliest-encountered
candidate wins. -/
def pickLargest : List FieldC → Option FieldC
  | [] => none
  | c :: cs => some (cs.foldl (fun best x => if x.area > best.area then x else best) c)

/-- Candidate partitioning of `detectAndCreateFields`: walk the common
neighbours, skip entries whose portal cannot be found, and push a candidate
onto the left (positive cross) or right (negative cross) list. -/
def candStep (st : SimState) (p1 p2 : PState) (id1 id2 : List Char) (team : Option String)
    (lr : List FieldC × List FieldC) (p3Id : Option (List Char)) :
    List FieldC × List FieldC :=
  match p3Id with
  | none => lr
  | some nid =>
    match mfind st.portalStates nid with
    | none => lr
    | some p3 =>
      let val := calculateCrossProduct p1 p2 p3
      let fc : FieldC := ⟨id1, id2, nid, team, |val|⟩
      if val > 0 then (lr.1 ++ [fc], lr.2)
      else if val < 0 then (lr.1, lr.2 ++ [fc])
      else lr

/-- `commonNeighbors` of `detectAndCreateFields`:
`neighbors1.filter(n => neighbors2.includes(n))`. -/
def commonNeighborsOf (st : SimState) (id1 id2 : List Char) :
    List (Option (List Char)) :=
  (getNeighbors st id1).filter (fun n => (getNeighbors st id2).contains n)

/-- The left (positive cross) and right (negative cross) candidate lists
accumulated by the `commonNeighbors.forEach` loop of
`detectAndCreateFields`. -/
def sideCandidates (st : SimState) (p1 p2 : PState) (id1 id2 : List Char)
    (team : Option String) : List FieldC × List FieldC :=
  (commonNeighborsOf st id1 id2).foldl (candStep st p1 p2 id1 id2 team) ([], [])

/-- The (zero- or one-element) list of emitted fields for one side: the
winning candidate with its auxiliary `area` deleted. -/
def winnerList (l : List FieldC) : List Field :=
  match pickLargest l with
  | some w => [w.strip]
  | none => []

/-- `detectAndCreateFields(id1, id2, team)`: emit at most one field per side
of the new edge, chosen by largest `|cross|` (ties: first encountered). -/
def detectAndCreateFields (st : SimState) (id1 id2 : List Char) (team : Option String) :
    SimState × Bool :=
  match mfind st.portalStates id1, mfind st.portalStates id2 with
  | some p1, some p2 =>
    if (commonNeighborsOf st id1 id2).isEmpty then (st, false)
    else
      let lr := sideCandidates st p1 p2 id1 id2 team
      ({ st with fields := st.fields ++ winnerList lr.1 ++ winnerList lr.2 },
        !lr.1.isEmpty || !lr.2.isEmpty)
  | _, _ => (st, false)

/-- The verb `destroy`. -/
def destroyV : List Char := ['d', 'e', 's', 't', 'r', 'o', 'y']

/-- The `_RES` verb suffix. -/
def resSuffix : List Char := ['_', 'R', 'E', 'S']

/-- The `_ENL` verb suffix. -/
def enlSuffix : List Char := ['_', 'E', 'N', 'L']

/-- The keyword `deploy`. -/
def deployV : List Char := ['d', 'e', 'p', 'l', 'o', 'y']

/-- The keyword `captured`. -/
def capturedV : List Char := ['c', 'a', 'p', 't', 'u', 'r', 'e', 'd']

/-- The `won_` verb prefix of battle-beacon outcomes. -/
def wonV : List Char := ['w', 'o', 'n', '_']

/-- JS truthiness of a possibly-null string: `null`, `undefined` and the
empty string are falsy. -/
def truthy : Option (List Char) → Bool
  | some s => !s.isEmpty
  | none => false

/-- Section 1 of `processAction` (IDENTIFY TEAM): `'RES'` if the verb is
truthy and contains `_RES` or `action.team === 'RES'`; else `'ENL'`
likewise; else `null`. -/
def teamOf (a : Action) : Option String :=
  if !a.action.isEmpty && (jsIncludes resSuffix a.action || a.team == some "RES") then
    some "RES"
  else if !a.action.isEmpty && (jsIncludes enlSuffix a.action || a.team == some "ENL") then
    some "ENL"
  else none

/-- Section 2 of `processAction`: explicit link destroy
(`type === 'link' && action === 'destroy'`).  When both ids are truthy the
canonical key is deleted; either way this branch returns. -/
def explicitLinkDestroy (st : SimState) (a : Action) : SimState × Bool :=
  match a.portal_id, a.target_portal_id with
  | some s1, some s2 =>
    if !s1.isEmpty && !s2.isEmpty then deleteLink st (getLinkKey s1 s2)
    else (st, false)
  | _, _ => (st, false)

/-- Section 3 of `processAction`: resonator destroy / decay.  Note the JS
`this.portalResonators.get(p1Id) || 8`: a missing *or zero* stored count is
replaced by 8 before the decrement. -/
def resoDestroy (st : SimState) (a : Action) : SimState × Bool :=
  match a.portal_id with
  | some s1 =>
    if mhas st.portalStates s1 then
      let c0 := (mfind st.portalResonators s1).getD 0
      let currentCount := if c0 = 0 then 8 else c0
      let currentCount := if currentCount > 0 then currentCount - 1 else currentCount
      let st1 := { st with portalResonators := mset st.portalResonators s1 currentCount }
      let r2 := if currentCount ≤ 2 then removeLinksAttachedTo st1 s1 else (st1, false)
      let r3 :=
        if currentCount = 0 then
          let stA := { r2.1 with portalResonators := mset r2.1.portalResonators s1 0 }
          setPortalTeam stA s1 (some "NEUTRAL")
        else (r2.1, false)
      (r3.1, r2.2 || r3.2)
    else (st, false)
  | none => (st, false)

/-- Section 4 of `processAction` (PORTAL OWNERSHIP): flip / capture /
reinforce, guarded by a truthy team and portal id and a `deploy`/`captured`
verb keyword. -/
def deploySection (st : SimState) (a : Action) : SimState × Bool :=
  match teamOf a, a.portal_id with
  | some t, some s1 =>
    if !s1.isEmpty then
      match mfind st.portalStates s1 with
      | some currentState =>
        if jsIncludes deployV a.action || jsIncludes capturedV a.action then
          if currentState.team ≠ some "NEUTRAL" ∧ currentState.team ≠ some t then
            -- FLIP: Faction Changed (Visible)
            let rA := setPortalTeam st s1 (some t)
            let rB := removeLinksAttachedTo rA.1 s1
            ({ rB.1 with portalResonators := mset rB.1.portalResonators s1 1 }, true)
          else if currentState.team = some "NEUTRAL" then
            -- CAPTURE: Neutral -> Faction (Visible)
            let rA := setPortalTeam st s1 (some t)
            ({ rA.1 with portalResonators := mset rA.1.portalResonators s1 1 }, true)
          else
            -- REINFORCE: (Not Visible)
            let count := (mfind st.portalResonators s1).getD 0
            (if count < 8 then
              { st with portalResonators := mset st.portalResonators s1 (count + 1) }
            else st, false)
        else (st, false)
      | none => (st, false)
    else (st, false)
  | _, _ => (st, false)

/-- Section 5 of `processAction` (LINKS & FIELDS), entered with the state
and visible flag accumulated by section 4. -/
def linkSection (st : SimState) (ch : Bool) (a : Action) : SimState × Bool :=
  match a.portal_id, a.target_portal_id, teamOf a with
  | some s1, some s2, some t =>
    if !s1.isEmpty && !s2.isEmpty then
      let rA := setPortalTeam st s1 (some t)
      let rB := setPortalTeam rA.1 s2 (some t)
      let ch1 := ch || rA.2 || rB.2
      let linkKey := getLinkKey s1 s2
      if linkKey ∈ rB.1.links then (rB.1, ch1)
      else
        let rC := cleanupCrossedLinks rB.1 s1 s2
        let stD := { rC.1 with links :=
          if linkKey ∈ rC.1.links then rC.1.links else rC.1.links ++ [linkKey] }
        let rE := detectAndCreateFields stD s1 s2 (some t)
        (rE.1, (ch1 || rC.2 || true) || rE.2)
    else (st, ch)
  | _, _, _ => (st, ch)

/-- Section 6 of `processAction` (BATTLE BEACON), entered with the state and
visible flag accumulated by section 4. -/
def beaconSection (st : SimState) (ch : Bool) (a : Action) : SimState × Bool :=
  let r1 :=
    match a.portal_id with
    | some s1 =>
      match mfind st.portalStates s1 with
      | some currentState =>
        if currentState.team ≠ some "NEUTRAL" ∧ currentState.team ≠ teamOf a then
          let rA := removeLinksAttachedTo st s1
          (rA.1, true)
        else (st, false)
      | none => (st, false)
    | none => (st, false)
  let r2 :=
    match a.portal_id with
    | some s1 => setPortalTeam r1.1 s1 (teamOf a)
    | none => (r1.1, false)
  (r2.1, ch || r1.2 || r2.2)

/-- `processAction(action)`: dispatch in source order.  Sections 2 and 3
return immediately; section 4 falls through into section 5 or 6. -/
def processAction (st : SimState) (a : Action) : SimState × Bool :=
  if a.type = "link" ∧ a.action = destroyV then explicitLinkDestroy st a
  else if a.action = destroyV ∧ a.type = "reso" then resoDestroy st a
  else
    let r1 := deploySection st a
    if a.type = "link" then linkSection r1.1 r1.2 a
    else if jsStartsWith wonV a.action then beaconSection r1.1 r1.2 a
    else r1

/-- Replaying a whole action list (the replay driver's inner loop: each
action is fed to `processAction` in order; the returned flag only gates
frame capture). -/
def replay (st : SimState) (actions : List Action) : SimState :=
  actions.foldl (fun s a => (processAction s a).1) st

/-- Snapshot link record `{p1: a, p2: b}` produced from `k.split('-')`;
`p2` is `undefined` (`none`) for a dash-free key. -/
structure LinkOut where
  p1 : List Char
  p2 : Option (List Char)
deriving DecidableEq, Repr

/-- Snapshot returned by `getCurrentState()`. -/
structure Snapshot where
  portals : List PState
  links : List LinkOut
  fields : List Field
deriving DecidableEq, Repr

/-- `getCurrentState()`: value-list of portals, `{p1,p2}` pairs for links,
and the field list. -/
def getCurrentState (st : SimState) : Snapshot :=
  { portals := st.portalStates.map (fun kv => kv.2)
    links := st.links.map (fun k =>
      match splitDash k with
      | a :: rest => ⟨a, rest.head?⟩
      | [] => ⟨[], none⟩)
    fields := st.fields }

/-! ## History store projections (`#parseIngressData` / `#saveToDB`) -/

/-- A `PORTAL` markup entry of the raw feed. -/
structure RawPortal where
  guid : String
  latE6 : Int
  lngE6 : Int
  name : String
  address : String
  team : String
deriving DecidableEq

/-- `parseE6`: divide a micro-degree integer by `1_000_000` (exactly). -/
def parseE6 (e6 : Int) : ℚ := (e6 : ℚ) / 1000000

/-- The normalized portal record built by `formatPortal` inside
`#parseIngressData`. -/
structure Cords where
  id : String
  lat : ℚ
  lng : ℚ
  name : String
  address : String
  team : String
deriving DecidableEq

/-- `formatPortal(p)` from `#parseIngressData`: `id = guid`, coordinates via
`parseE6`. -/
def formatPortal (p : RawPortal) : Cords :=
  ⟨p.guid, parseE6 p.latE6, parseE6 p.lngE6, p.name, p.address, p.team⟩

/-- A row of the `portals` table (`id TEXT PRIMARY KEY, lat, lng, name,
address, team`). -/
structure PortalRow where
  id : String
  lat : ℚ
  lng : ℚ
  name : String
  address : String
  team : String
deriving DecidableEq

/-- The `portals` row inserted by `#saveToDB` for one cords record:
`stmtPortal.run(d.cords1.name, d.cords1.lat, d.cords1.lng, d.cords1.name,
d.cords1.address, d.cords1.team)` — the first (primary key) argument is the
portal's *name*. -/
def savedPortalRow (c : Cords) : PortalRow :=
  ⟨c.name, c.lat, c.lng, c.name, c.address, c.team⟩

/-- The value `#saveToDB` binds into the `portal_id` / `target_portal_id`
column of an `actions` row: `d.cords1 ? d.cords1.name : null`. -/
def savedActionRef (c : Option Cords) : Option String :=
  match c with
  | some c => some c.name
  | none => none

/-! ## Specification-side definitions and claim-level predicates -/

/-- Following the spec's words for field candidate selection: choose the
candidate with the largest triangle area, breaking ties by neighbour-id
lexicographic order (smallest `p3` winning among equal areas). -/
def specTieBreakWinner : List FieldC → Option FieldC
  | [] => none
  | c :: cs => some (cs.foldl
      (fun best x =>
        if x.area > best.area ∨ (x.area = best.area ∧ keyLE x.p3 best.p3 ∧ x.p3 ≠ best.p3)
        then x else best) c)

/-- A string free of the `-` separator character. -/
def dashFree (s : List Char) : Prop := '-' ∉ s

instance (s : List Char) : Decidable (dashFree s) :=
  inferInstanceAs (Decidable ('-' ∉ s))

/-- Invariant I1/P1: every stored link key is the canonical key of two
portals present in the catalog. -/
def LinksWellFormed (st : SimState) : Prop :=
  ∀ k ∈ st.links, ∃ a b, mhas st.portalStates a ∧ mhas st.portalStates b ∧
    k = getLinkKey a b

/-- Proper segment intersection in the claim's sense: strictly opposite
cross-product signs on both segments (shared identifiers are excluded by
the caller's distinctness hypotheses). -/
def ProperCross (a b c d : PState) : Prop :=
  calculateCrossProduct a b c * calculateCrossProduct a b d < 0 ∧
  calculateCrossProduct c d a * calculateCrossProduct c d b < 0

instance (a b c d : PState) : Decidable (ProperCross a b c d) :=
  inferInstanceAs (Decidable
    (calculateCrossProduct a b c * calculateCrossProduct a b d < 0 ∧
      calculateCrossProduct c d a * calculateCrossProduct c d b < 0))

/-- Invariant I2/P2 as claimed: any two stored links with four distinct
catalog endpoints do not properly cross. -/
def NoCrossing (st : SimState) : Prop :=
  ∀ a b c d pa pb pc pd,
    mfind st.portalStates a = some pa → mfind st.portalStates b = some pb →
    mfind st.portalStates c = some pc → mfind st.portalStates d = some pd →
    a ≠ b → a ≠ c → a ≠ d → b ≠ c → b ≠ d → c ≠ d →
    getLinkKey a b ∈ st.links → getLinkKey c d ∈ st.links →
    getLinkKey a b ≠ getLinkKey c d →
    ¬ ProperCross pa pb pc pd

/-- Every stored portal record carries the identifier it is keyed by (true
of every state the class constructs; needed because `doLinksIntersect`
compares the *records'* `id` fields). -/
def IdsConsistent (st : SimState) : Prop :=
  ∀ k p, mfind st.portalStates k = some p → p.id = k

/-- All catalog keys are dash-free. -/
def CatalogDashFree (st : SimState) : Prop :=
  ∀ k, mhas st.portalStates k → dashFree k

/-- The visible projection of the state: portal records (including teams),
the link set and the field list — exactly what `getCurrentState` serializes
and the renderer draws. -/
def visibleEq (s t : SimState) : Prop :=
  s.portalStates = t.portalStates ∧ s.links = t.links ∧ s.fields = t.fields

/-- Two portal records at the same coordinates (`setPortalTeam` preserves
this; the cross products depend on nothing else). -/
def geoEq (p q : PState) : Prop := p.lat = q.lat ∧ p.lng = q.lng

/-! ## Concrete inputs used by counterexamples and witnesses -/

/-- The verb `link_ENL`. -/
def linkENLv : List Char := ['l', 'i', 'n', 'k', '_', 'E', 'N', 'L']

/-- The verb `captured_ENL`. -/
def capturedENLv : List Char := ['c', 'a', 'p', 't', 'u', 'r', 'e', 'd', '_', 'E', 'N', 'L']

/-- A normalized `link_ENL` action between two portal ids. -/
def mkLink (e : String) (s1 s2 : List Char) : Action :=
  ⟨e, 0, "link", linkENLv, some s1, some s2, none⟩

/-- A normalized `captured_ENL` action on one portal id. -/
def mkCapture (e : String) (s1 : List Char) : Action :=
  ⟨e, 0, "portal", capturedENLv, some s1, none, none⟩

/-- A normalized resonator-destruction action on one portal id. -/
def mkResoDestroy (e : String) (s1 : List Char) : Action :=
  ⟨e, 0, "reso", destroyV, some s1, none, none⟩

/-- A normalized portal-neutralization action (`neutralized by` feed lines:
`type = 'portal'`, `action = 'destroy'`). -/
def mkPortalDestroy (e : String) (s1 : List Char) : Action :=
  ⟨e, 0, "portal", destroyV, some s1, none, none⟩

/-- Catalog of the C5 counterexample: portal `b-c` carries a dash in its
identifier.  Coordinates are micro-degree integers in general position. -/
def cat5 : List PortalIn :=
  [⟨['a'], 0, 0⟩, ⟨['b', '-', 'c'], 0, 2⟩, ⟨['b'], 5, -5⟩, ⟨['c'], 10, 10⟩,
    ⟨['x'], -1, 1⟩, ⟨['y'], 1, 1⟩]

/-- Final state of the C5 counterexample: link `{a, b-c}` then link `{x, y}`. -/
def fin5 : SimState :=
  replay (initSim cat5) [mkLink "e1" ['a'] ['b', '-', 'c'], mkLink "e2" ['x'] ['y']]

/-- Catalog of the C6 counterexample: `z` and `b` sit at the same point so
both field candidates over the base `p`–`q` have the same area. -/
def cat6 : List PortalIn :=
  [⟨['p'], 0, 0⟩, ⟨['q'], 0, 2⟩, ⟨['z'], 1, 1⟩, ⟨['b'], 1, 1⟩]

/-- Final state of the C6 counterexample: star links first (so that `z` is
encountered before `b` among common neighbours), then the base `p`–`q`. -/
def fin6 : SimState :=
  replay (initSim cat6)
    [mkLink "e1" ['z'] ['p'], mkLink "e2" ['z'] ['q'],
      mkLink "e3" ['b'] ['p'], mkLink "e4" ['b'] ['q'], mkLink "e5" ['p'] ['q']]

/-- Catalog of the C8 counterexample: the id `a` is a substring of the id
`ab`. -/
def cat8 : List PortalIn :=
  [⟨['a', 'b'], 0, 0⟩, ⟨['c'], 1, 1⟩, ⟨['a'], 5, 5⟩]

/-- State of the C8 counterexample: the link `{ab, c}` is stored and the
unrelated portal `a` is captured. -/
def st8 : SimState :=
  replay (initSim cat8) [mkLink "e1" ['a', 'b'] ['c'], mkCapture "e2" ['a']]

/-- A two-portal state with a stored link `{A, B}` and portal `A` at
resonator count 3, used to exercise the reso-destroy link-removal
threshold. -/
def stC4 : SimState :=
  { portalStates := [(['A'], ⟨['A'], 0, 0, some "ENL"⟩),
      (['B'], ⟨['B'], 1, 1, some "ENL"⟩)]
    links := [getLinkKey ['A'] ['B']]
    fields := []
    portalResonators := [(['A'], 3), (['B'], 3)] }

/-- A two-portal catalog used to instantiate the field-detection
characterization at a concrete input. -/
def st6w : SimState := initSim [⟨['P'], 0, 0⟩, ⟨['Q'], 0, 2⟩]

/-- The stored record of portal `P` in `st6w`. -/
def p6w1 : PState := ⟨['P'], 0, 0, some "NEUTRAL"⟩

/-- The stored record of portal `Q` in `st6w`. -/
def p6w2 : PState := ⟨['Q'], 0, 2, some "NEUTRAL"⟩

/-- The identity-and-geometry view of a portal map entry: everything except
the mutable team. -/
def geoView (m : List (List Char × PState)) (k : List Char) :
    Option (List Char × Int × Int) :=
  (mfind m k).map (fun p => (p.id, p.lat, p.lng))

/-! ## General lemmas: strings -/

theorem jsStartsWith_iff (n h : List Char) : jsStartsWith n h = true ↔ n <+: h := by
  induction n generalizing h with
  | nil => simp [jsStartsWith]
  | cons a as ih =>
    cases h with
    | nil => simp [jsStartsWith]
    | cons b bs =>
      simp only [jsStartsWith, Bool.and_eq_true, decide_eq_true_eq,
        List.cons_prefix_cons, ih]

theorem jsIncludes_iff (n h : List Char) : jsIncludes n h = true ↔ n <:+: h := by
  induction h with
  | nil =>
    simp only [jsIncludes, jsStartsWith_iff, List.prefix_nil, List.infix_nil]
  | cons c rest ih =>
    simp only [jsIncludes, Bool.or_eq_true, jsStartsWith_iff, ih]
    constructor
    · rintro (hp | hi)
      · exact hp.isInfix
      · exact hi.trans (List.infix_cons (List.infix_refl rest))
    · intro hi
      rcases hi with ⟨s, t, hst⟩
      cases s with
      | nil => exact Or.inl ⟨t, by simpa using hst⟩
      | cons x xs =>
        right
        refine (⟨xs, t, ?_⟩ : n <:+: rest)
        have := hst
        simp only [List.cons_append, List.cons.injEq] at this
        exact this.2

theorem jsIncludes_append_left (a b : List Char) :
    jsIncludes a (a ++ b) = true := by
  rw [jsIncludes_iff]
  exact ⟨[], b, rfl⟩

theorem jsIncludes_append_right (a b : List Char) :
    jsIncludes a (b ++ a) = true := by
  rw [jsIncludes_iff]
  exact ⟨b, [], by simp⟩

theorem jsIncludes_getLinkKey_left (a b : List Char) :
    jsIncludes a (getLinkKey a b) = true := by
  unfold getLinkKey
  split
  · simpa using jsIncludes_append_left a ('-' :: b)
  · rw [jsIncludes_iff]
    exact ⟨b ++ ['-'], [], by simp⟩

theorem jsIncludes_getLinkKey_right (a b : List Char) :
    jsIncludes b (getLinkKey a b) = true := by
  unfold getLinkKey
  split
  · rw [jsIncludes_iff]
    exact ⟨a ++ ['-'], [], by simp⟩
  · simpa using jsIncludes_append_left b ('-' :: a)

theorem splitDash_ne_nil (s : List Char) : splitDash s ≠ [] := by
  cases s with
  | nil => simp [splitDash]
  | cons c rest =>
    unfold splitDash
    split <;> simp

theorem splitDash_dashFree (s : List Char) (h : dashFree s) : splitDash s = [s] := by
  induction s with
  | nil => rfl
  | cons c rest ih =>
    have hc : c ≠ '-' := fun hq => h (hq ▸ List.mem_cons_self c rest)
    have hr : dashFree rest := fun hm => h (List.mem_cons_of_mem c hm)
    unfold splitDash
    rw [if_neg hc, ih hr]
    rfl

theorem splitDash_append (a b : List Char) (ha : dashFree a) :
    splitDash (a ++ '-' :: b) = a :: splitDash b := by
  induction a with
  | nil => simp [splitDash]
  | cons c rest ih =>
    have hc : c ≠ '-' := fun hq => ha (hq ▸ List.mem_cons_self c rest)
    have hr : dashFree rest := fun hm => ha (List.mem_cons_of_mem c hm)
    simp only [List.cons_append]
    rw [splitDash]
    rw [if_neg hc, ih hr]
    rfl

theorem splitDash_sep (a b : List Char) (ha : dashFree a) (hb : dashFree b) :
    splitDash (a ++ '-' :: b) = [a, b] := by
  rw [splitDash_append a b ha, splitDash_dashFree b hb]

/-- Unique decomposition of a two-part dashed string when the target parts
are dash-free. -/
theorem sep_decomp (s t a b : List Char) (ha : dashFree a) (hb : dashFree b)
    (h : s ++ '-' :: t = a ++ '-' :: b) : s = a ∧ t = b := by
  induction s generalizing a with
  | nil =>
    cases a with
    | nil =>
      simp only [List.nil_append, List.cons.injEq] at h
      exact ⟨rfl, h.2⟩
    | cons d a2 =>
      simp only [List.nil_append, List.cons_append, List.cons.injEq] at h
      exact absurd (h.1 ▸ List.mem_cons_self d a2) ha
  | cons c s2 ih =>
    cases a with
    | nil =>
      simp only [List.cons_append, List.nil_append, List.cons.injEq] at h
      have : '-' ∈ s2 ++ '-' :: t := List.mem_append_right s2 (List.mem_cons_self '-' t)
      exact absurd (h.2 ▸ this) hb
    | cons d a2 =>
      simp only [List.cons_append, List.cons.injEq] at h
      have ha2 : dashFree a2 := fun hm => ha (List.mem_cons_of_mem d hm)
      obtain ⟨h1, h2⟩ := ih a2 ha2 h.2
      exact ⟨by rw [h.1, h1], h2⟩

theorem getLinkKey_cases (a b : List Char) :
    getLinkKey a b = a ++ '-' :: b ∨ getLinkKey a b = b ++ '-' :: a := by
  unfold getLinkKey
  split
  · exact Or.inl rfl
  · exact Or.inr rfl

/-- Canonical keys of dash-free pairs determine the pair up to order. -/
theorem getLinkKey_decomp (u v a b : List Char) (ha : dashFree a) (hb : dashFree b)
    (h : getLinkKey u v = getLinkKey a b) :
    (u = a ∧ v = b) ∨ (u = b ∧ v = a) := by
  rcases getLinkKey_cases u v with h1 | h1 <;> rcases getLinkKey_cases a b with h2 | h2
  · exact Or.inl (sep_decomp u v a b ha hb (h1 ▸ h2 ▸ h))
  · exact Or.inr (sep_decomp u v b a hb ha (h1 ▸ h2 ▸ h))
  · obtain ⟨hva, hub⟩ := sep_decomp v u a b ha hb (h1 ▸ h2 ▸ h)
    exact Or.inr ⟨hub, hva⟩
  · obtain ⟨hvb, hua⟩ := sep_decomp v u b a hb ha (h1 ▸ h2 ▸ h)
    exact Or.inl ⟨hua, hvb⟩

/-- Splitting the canonical key of a dash-free pair recovers the pair (in
key order). -/
theorem splitDash_getLinkKey (a b : List Char) (ha : dashFree a) (hb : dashFree b) :
    splitDash (getLinkKey a b) = [a, b] ∨ splitDash (getLinkKey a b) = [b, a] := by
  rcases getLinkKey_cases a b with h | h <;> rw [h]
  · exact Or.inl (splitDash_sep a b ha hb)
  · exact Or.inr (splitDash_sep b a hb ha)

/-! ## General lemmas: maps -/

theorem mfind_mset {α : Type} (m : List (List Char × α)) (k : List Char) (v : α)
    (q : List Char) :
    mfind (mset m k v) q = if k = q then some v else mfind m q := by
  induction m with
  | nil => simp [mfind, mset]
  | cons kv rest ih =>
    obtain ⟨k0, v0⟩ := kv
    by_cases h0 : k0 = k
    · subst h0
      rw [mset, if_pos rfl, mfind]
      by_cases hq : k0 = q
      · rw [if_pos hq, if_pos hq]
      · rw [if_neg hq, if_neg hq, mfind, if_neg hq]
    · rw [mset, if_neg h0, mfind]
      by_cases hq : k0 = q
      · rw [if_pos hq, if_neg (fun hkq => h0 (hq.trans hkq.symm)), mfind, if_pos hq]
      · rw [if_neg hq, ih, mfind, if_neg hq]

theorem mfind_mset_self {α : Type} (m : List (List Char × α)) (k : List Char) (v : α) :
    mfind (mset m k v) k = some v := by
  rw [mfind_mset]; simp

theorem mset_self {α : Type} (m : List (List Char × α)) (k : List Char) (v : α)
    (h : mfind m k = some v) : mset m k v = m := by
  induction m with
  | nil => simp [mfind] at h
  | cons kv rest ih =>
    obtain ⟨k0, v0⟩ := kv
    by_cases h0 : k0 = k
    · subst h0
      rw [mfind, if_pos rfl] at h
      obtain rfl : v0 = v := Option.some.inj h
      rw [mset, if_pos rfl]
    · rw [mfind, if_neg h0] at h
      rw [mset, if_neg h0, ih h]

theorem mhas_mset {α : Type} (m : List (List Char × α)) (k : List Char) (v : α)
    (q : List Char) :
    mhas (mset m k v) q = (decide (k = q) || mhas m q) := by
  unfold mhas
  rw [mfind_mset]
  by_cases h : k = q <;> simp [h]

/-! ## General lemmas: `setPortalTeam` -/

theorem setPortalTeam_links (st : SimState) (id : List Char) (t : Option String) :
    (setPortalTeam st id t).1.links = st.links := by
  unfold setPortalTeam
  rcases mfind st.portalStates id with _ | p
  · rfl
  · dsimp only
    split <;> rfl

theorem setPortalTeam_fields (st : SimState) (id : List Char) (t : Option String) :
    (setPortalTeam st id t).1.fields = st.fields := by
  unfold setPortalTeam
  rcases mfind st.portalStates id with _ | p
  · rfl
  · dsimp only
    split <;> rfl

theorem setPortalTeam_resonators (st : SimState) (id : List Char) (t : Option String) :
    (setPortalTeam st id t).1.portalResonators = st.portalResonators := by
  unfold setPortalTeam
  rcases mfind st.portalStates id with _ | p
  · rfl
  · dsimp only
    split <;> rfl

theorem setPortalTeam_geoView (st : SimState) (id : List Char) (t : Option String)
    (k : List Char) :
    geoView (setPortalTeam st id t).1.portalStates k = geoView st.portalStates k := by
  unfold setPortalTeam
  rcases hp : mfind st.portalStates id with _ | p
  · rfl
  · dsimp only
    split
    · unfold geoView
      dsimp only
      rw [mfind_mset]
      by_cases hk : id = k
      · subst hk
        rw [if_pos rfl, hp]
        rfl
      · rw [if_neg hk]
    · rfl

theorem setPortalTeam_false (st : SimState) (id : List Char) (t : Option String)
    (h : (setPortalTeam st id t).2 = false) : (setPortalTeam st id t).1 = st := by
  unfold setPortalTeam at h ⊢
  rcases hp : mfind st.portalStates id with _ | p
  · rfl
  · rw [hp] at h
    dsimp only at h ⊢
    by_cases hteam : p.team ≠ t
    · rw [if_pos hteam] at h
      simp at h
    · rw [if_neg hteam]

theorem setPortalTeam_noop (st : SimState) (id : List Char) (t : Option String) (p : PState)
    (hp : mfind st.portalStates id = some p) (ht : p.team = t) :
    setPortalTeam st id t = (st, false) := by
  unfold setPortalTeam
  rw [hp]
  dsimp only
  rw [if_neg (by simp [ht])]

theorem setPortalTeam_true (st : SimState) (id : List Char) (t : Option String)
    (h : (setPortalTeam st id t).2 = true) :
    ∃ p, mfind st.portalStates id = some p ∧ p.team ≠ t ∧
      (setPortalTeam st id t).1.portalStates =
        mset st.portalStates id { p with team := t } := by
  unfold setPortalTeam at h ⊢
  rcases hp : mfind st.portalStates id with _ | p
  · rw [hp] at h
    simp at h
  · rw [hp] at h
    dsimp only at h ⊢
    by_cases hteam : p.team ≠ t
    · rw [if_pos hteam] at h ⊢
      exact ⟨p, rfl, hteam, rfl⟩
    · rw [if_neg hteam] at h
      simp at h

theorem setPortalTeam_mfind_other (st : SimState) (id : List Char) (t : Option String)
    (k : List Char) (hk : id ≠ k) :
    mfind (setPortalTeam st id t).1.portalStates k = mfind st.portalStates k := by
  unfold setPortalTeam
  rcases hp : mfind st.portalStates id with _ | p
  · rfl
  · dsimp only
    split
    · dsimp only
      rw [mfind_mset, if_neg hk]
    · rfl

/-- Every portal record after `setPortalTeam` is either the old record or
the addressed record with its team overwritten. -/
theorem setPortalTeam_mfind_cases (st : SimState) (id : List Char) (t : Option String)
    (k : List Char) (p' : PState)
    (h : mfind (setPortalTeam st id t).1.portalStates k = some p') :
    mfind st.portalStates k = some p' ∨
      (k = id ∧ p'.team = t ∧ ∃ p, mfind st.portalStates k = some p ∧
        p' = { p with team := t }) := by
  cases hb : (setPortalTeam st id t).2 with
  | false =>
    rw [setPortalTeam_false st id t hb] at h
    exact Or.inl h
  | true =>
    obtain ⟨p, hp, hne, hps⟩ := setPortalTeam_true st id t hb
    rw [hps, mfind_mset] at h
    by_cases hk : id = k
    · subst hk
      rw [if_pos rfl] at h
      obtain rfl := Option.some.inj h
      exact Or.inr ⟨rfl, rfl, p, hp, rfl⟩
    · rw [if_neg hk] at h
      exact Or.inl h

/-! ## General lemmas: `deleteLink` -/

theorem deleteLink_portalStates (st : SimState) (k : List Char) :
    (deleteLink st k).1.portalStates = st.portalStates := by
  unfold deleteLink
  split
  · split <;> rfl
  · rfl

theorem deleteLink_resonators (st : SimState) (k : List Char) :
    (deleteLink st k).1.portalResonators = st.portalResonators := by
  unfold deleteLink
  split
  · split <;> rfl
  · rfl

theorem deleteLink_links_eq (st : SimState) (k : List Char) :
    (deleteLink st k).1.links = st.links.filter (fun x => x ≠ k) := by
  unfold deleteLink
  split
  · split <;> rfl
  · rename_i hmem
    dsimp only
    exact (List.filter_eq_self.mpr (fun a ha => by
      simp only [ne_eq, decide_eq_true_eq]
      exact fun hak => hmem (hak ▸ ha))).symm

theorem deleteLink_false (st : SimState) (k : List Char)
    (h : (deleteLink st k).2 = false) : (deleteLink st k).1 = st := by
  unfold deleteLink at h ⊢
  by_cases hmem : k ∈ st.links
  · rw [if_pos hmem] at h
    exact absurd h (by simp)
  · rw [if_neg hmem]

theorem deleteLink_true (st : SimState) (k : List Char)
    (h : (deleteLink st k).2 = true) : k ∈ st.links := by
  unfold deleteLink at h
  split at h
  · assumption
  · simp at h

theorem deleteLink_fields_sub (st : SimState) (k : List Char) :
    ∀ f ∈ (deleteLink st k).1.fields, f ∈ st.fields := by
  unfold deleteLink
  split
  · split
    · intro f hf
      exact List.mem_of_mem_filter hf
    · intro f hf; exact hf
  · intro f hf; exact hf

theorem deleteLink_fields_le (st : SimState) (k : List Char) :
    (deleteLink st k).1.fields.length ≤ st.fields.length := by
  unfold deleteLink
  split
  · split
    · exact List.length_filter_le _ _
    · exact le_refl _
  · exact le_refl _

theorem deleteLink_links_le (st : SimState) (k : List Char) :
    (deleteLink st k).1.links.length ≤ st.links.length := by
  rw [deleteLink_links_eq]
  exact List.length_filter_le _ _

theorem deleteLink_true_shrinks (st : SimState) (k : List Char)
    (h : (deleteLink st k).2 = true) :
    (deleteLink st k).1.links.length < st.links.length := by
  rw [deleteLink_links_eq]
  have hk := deleteLink_true st k h
  calc (st.links.filter (fun x => x ≠ k)).length
      < (st.links.filter (fun x => x ≠ k)).length + 1 := Nat.lt_succ_self _
    _ ≤ st.links.length := by
      have := @List.length_eq_length_filter_add _ st.links (fun x => (x ≠ k : Bool))
      have hpos : 0 < (st.links.filter (fun x => !(x ≠ k : Bool))).length := by
        apply List.length_pos.mpr
        intro hemp
        have : k ∈ st.links.filter (fun x => !(x ≠ k : Bool)) := by
          apply List.mem_filter.mpr
          exact ⟨hk, by simp⟩
        rw [hemp] at this
        exact List.not_mem_nil k this
      omega

/-! ## General lemmas: folded deletions -/

theorem delFold_portalStates (L : List (List Char)) (acc : SimState × Bool) :
    ((L.foldl delStep acc).1).portalStates = acc.1.portalStates := by
  induction L generalizing acc with
  | nil => rfl
  | cons k rest ih =>
    rw [List.foldl_cons, ih]
    exact deleteLink_portalStates acc.1 k

theorem delFold_resonators (L : List (List Char)) (acc : SimState × Bool) :
    ((L.foldl delStep acc).1).portalResonators = acc.1.portalResonators := by
  induction L generalizing acc with
  | nil => rfl
  | cons k rest ih =>
    rw [List.foldl_cons, ih]
    exact deleteLink_resonators acc.1 k

theorem delFold_links (L : List (List Char)) (acc : SimState × Bool) :
    ((L.foldl delStep acc).1).links =
      acc.1.links.filter (fun x => decide (x ∉ L)) := by
  induction L generalizing acc with
  | nil => simp
  | cons k rest ih =>
    rw [List.foldl_cons, ih]
    show ((deleteLink acc.1 k).1.links).filter _ = _
    rw [deleteLink_links_eq, List.filter_filter]
    apply List.filter_congr
    intro x _
    by_cases hk : x = k
    · subst hk
      simp
    · by_cases hr : x ∈ rest <;> simp [hk, hr]

theorem delFold_flag_true (L : List (List Char)) (acc : SimState × Bool)
    (h : acc.2 = true) : (L.foldl delStep acc).2 = true := by
  induction L generalizing acc with
  | nil => exact h
  | cons k rest ih =>
    rw [List.foldl_cons]
    exact ih _ (by simp [delStep, h])

theorem delFold_false (L : List (List Char)) (acc : SimState × Bool)
    (h : (L.foldl delStep acc).2 = false) :
    (L.foldl delStep acc).1 = acc.1 ∧ acc.2 = false := by
  induction L generalizing acc with
  | nil => exact ⟨rfl, h⟩
  | cons k rest ih =>
    rw [List.foldl_cons] at h
    obtain ⟨h1, h2⟩ := ih _ h
    have hd : (deleteLink acc.1 k).2 = false := by
      rcases hb : (deleteLink acc.1 k).2 with _ | _
      · rfl
      · exact absurd h2 (by simp [delStep, hb])
    have hacc : acc.2 = false := by
      rcases hb : acc.2 with _ | _
      · rfl
      · exact absurd h2 (by simp [delStep, hb])
    refine ⟨?_, hacc⟩
    rw [List.foldl_cons, h1]
    show (deleteLink acc.1 k).1 = acc.1
    exact deleteLink_false acc.1 k hd

theorem delFold_links_le (L : List (List Char)) (acc : SimState × Bool) :
    ((L.foldl delStep acc).1).links.length ≤ acc.1.links.length := by
  induction L generalizing acc with
  | nil => exact le_refl _
  | cons k rest ih =>
    rw [List.foldl_cons]
    exact le_trans (ih _) (deleteLink_links_le acc.1 k)

theorem delFold_fields_le (L : List (List Char)) (acc : SimState × Bool) :
    ((L.foldl delStep acc).1).fields.length ≤ acc.1.fields.length := by
  induction L generalizing acc with
  | nil => exact le_refl _
  | cons k rest ih =>
    rw [List.foldl_cons]
    exact le_trans (ih _) (deleteLink_fields_le acc.1 k)

theorem delFold_fields_sub (L : List (List Char)) (acc : SimState × Bool) :
    ∀ f ∈ ((L.foldl delStep acc).1).fields, f ∈ acc.1.fields := by
  induction L generalizing acc with
  | nil => exact fun f hf => hf
  | cons k rest ih =>
    intro f hf
    rw [List.foldl_cons] at hf
    exact deleteLink_fields_sub acc.1 k f (ih (delStep acc k) f hf)

theorem delFold_true_shrinks (L : List (List Char)) (acc : SimState × Bool)
    (hb : acc.2 = false) (h : (L.foldl delStep acc).2 = true) :
    ((L.foldl delStep acc).1).links.length < acc.1.links.length := by
  induction L generalizing acc with
  | nil =>
    rw [List.foldl_nil] at h
    rw [hb] at h
    exact absurd h (by simp)
  | cons k rest ih =>
    rw [List.foldl_cons] at h ⊢
    rcases hd : (deleteLink acc.1 k).2 with _ | _
    · have hstep : delStep acc k = (acc.1, false) := by
        show ((deleteLink acc.1 k).1, acc.2 || (deleteLink acc.1 k).2) = (acc.1, false)
        rw [deleteLink_false acc.1 k hd, hb, hd]
        rfl
      rw [hstep] at h ⊢
      exact ih (acc.1, false) rfl h
    · calc ((rest.foldl delStep (delStep acc k)).1).links.length
          ≤ (delStep acc k).1.links.length := delFold_links_le rest _
        _ = (deleteLink acc.1 k).1.links.length := rfl
        _ < acc.1.links.length := deleteLink_true_shrinks acc.1 k hd

/-! ## General lemmas: `removeLinksAttachedTo` -/

theorem removeLinks_portalStates (st : SimState) (p : List Char) :
    (removeLinksAttachedTo st p).1.portalStates = st.portalStates := by
  unfold removeLinksAttachedTo
  exact delFold_portalStates _ _

theorem removeLinks_resonators (st : SimState) (p : List Char) :
    (removeLinksAttachedTo st p).1.portalResonators = st.portalResonators := by
  unfold removeLinksAttachedTo
  exact delFold_resonators _ _

theorem removeLinks_links (st : SimState) (p : List Char) :
    (removeLinksAttachedTo st p).1.links =
      st.links.filter (fun k => !(jsIncludes p k)) := by
  unfold removeLinksAttachedTo
  show ((st.links.filter (fun k => jsIncludes p k)).foldl delStep (st, false)).1.links = _
  rw [delFold_links]
  apply List.filter_congr
  intro x hx
  by_cases hj : jsIncludes p x = true
  · have : x ∈ st.links.filter (fun k => jsIncludes p k) :=
      List.mem_filter.mpr ⟨hx, hj⟩
    simp [this, hj]
  · have : x ∉ st.links.filter (fun k => jsIncludes p k) := fun hmem =>
      hj (List.mem_filter.mp hmem).2
    simp [this, Bool.eq_false_iff.mpr hj]

theorem removeLinks_fields_sub (st : SimState) (p : List Char) :
    ∀ f ∈ (removeLinksAttachedTo st p).1.fields, f ∈ st.fields := by
  unfold removeLinksAttachedTo
  intro f hf
  exact delFold_fields_sub _ _ f (List.mem_of_mem_filter hf)

theorem removeLinks_fields_clean (st : SimState) (p : List Char) :
    ∀ f ∈ (removeLinksAttachedTo st p).1.fields,
      f.p1 ≠ p ∧ f.p2 ≠ p ∧ f.p3 ≠ p := by
  unfold removeLinksAttachedTo
  intro f hf
  have := (List.mem_filter.mp hf).2
  simp only [Bool.not_eq_eq_eq_not, Bool.not_true, Bool.or_eq_false_iff,
    decide_eq_false_iff_not] at this
  exact ⟨this.1.1, this.1.2, this.2⟩

theorem removeLinks_false (st : SimState) (p : List Char)
    (h : (removeLinksAttachedTo st p).2 = false) :
    (removeLinksAttachedTo st p).1 = st := by
  unfold removeLinksAttachedTo at h ⊢
  dsimp only at h ⊢
  rw [Bool.or_eq_false_iff] at h
  obtain ⟨h1, h2⟩ := h
  obtain ⟨hst, _⟩ := delFold_false _ _ h1
  rw [hst] at h2 ⊢
  have hle := List.length_filter_le
    (fun f => !(f.p1 = p || f.p2 = p || f.p3 = p)) st.fields
  rw [decide_eq_false_iff_not, Nat.not_lt] at h2
  have hlen : (st.fields.filter
      (fun f => !(f.p1 = p || f.p2 = p || f.p3 = p))).length = st.fields.length :=
    le_antisymm hle h2
  have : st.fields.filter (fun f => !(f.p1 = p || f.p2 = p || f.p3 = p)) = st.fields :=
    List.filter_eq_self.mpr (List.filter_length_eq_length.mp hlen)
  rw [this]

theorem removeLinks_true (st : SimState) (p : List Char)
    (h : (removeLinksAttachedTo st p).2 = true) :
    (removeLinksAttachedTo st p).1.links.length < st.links.length ∨
      (removeLinksAttachedTo st p).1.fields.length < st.fields.length := by
  unfold removeLinksAttachedTo at h ⊢
  dsimp only at h ⊢
  rw [Bool.or_eq_true] at h
  rcases h with h | h
  · left
    exact delFold_true_shrinks _ _ rfl h
  · right
    rw [decide_eq_true_eq] at h
    exact lt_of_lt_of_le h (delFold_fields_le _ _)

/-! ## General lemmas: `cleanupCrossedLinks` -/

theorem cleanupStep_portalStates (p1 p2 : PState) (acc : SimState × Bool) (k : List Char) :
    (cleanupStep p1 p2 acc k).1.portalStates = acc.1.portalStates := by
  unfold cleanupStep
  split
  · exact deleteLink_portalStates acc.1 k
  · rfl

theorem cleanupStep_resonators (p1 p2 : PState) (acc : SimState × Bool) (k : List Char) :
    (cleanupStep p1 p2 acc k).1.portalResonators = acc.1.portalResonators := by
  unfold cleanupStep
  split
  · exact deleteLink_resonators acc.1 k
  · rfl

theorem cleanupFold_portalStates (p1 p2 : PState) (L : List (List Char))
    (acc : SimState × Bool) :
    ((L.foldl (cleanupStep p1 p2) acc).1).portalStates = acc.1.portalStates := by
  induction L generalizing acc with
  | nil => rfl
  | cons k rest ih =>
    rw [List.foldl_cons, ih]
    exact cleanupStep_portalStates p1 p2 acc k

theorem cleanupFold_resonators (p1 p2 : PState) (L : List (List Char))
    (acc : SimState × Bool) :
    ((L.foldl (cleanupStep p1 p2) acc).1).portalResonators = acc.1.portalResonators := by
  induction L generalizing acc with
  | nil => rfl
  | cons k rest ih =>
    rw [List.foldl_cons, ih]
    exact cleanupStep_resonators p1 p2 acc k

theorem cleanupFold_mem (p1 p2 : PState) (L : List (List Char)) (acc : SimState × Bool)
    (k' : List Char) (h : k' ∈ ((L.foldl (cleanupStep p1 p2) acc).1).links) :
    k' ∈ acc.1.links ∧
      (k' ∈ L → sweepDeletes acc.1.portalStates p1 p2 k' = false) := by
  induction L generalizing acc with
  | nil => exact ⟨h, fun hk => absurd hk (List.not_mem_nil k')⟩
  | cons k0 rest ih =>
    rw [List.foldl_cons] at h
    obtain ⟨hmem, hrest⟩ := ih (cleanupStep p1 p2 acc k0) h
    rw [cleanupStep_portalStates] at hrest
    rcases hsw : sweepDeletes acc.1.portalStates p1 p2 k0 with _ | _
    · have hacc : (cleanupStep p1 p2 acc k0).1 = acc.1 := by
        unfold cleanupStep
        rw [hsw]
        rfl
      rw [hacc] at hmem
      refine ⟨hmem, fun hk => ?_⟩
      rcases List.mem_cons.mp hk with rfl | hk2
      · exact hsw
      · exact hrest hk2
    · have hacc : (cleanupStep p1 p2 acc k0).1 = (deleteLink acc.1 k0).1 := by
        unfold cleanupStep
        rw [hsw]
        rfl
      rw [hacc, deleteLink_links_eq] at hmem
      have hne : k' ≠ k0 := by
        have := (List.mem_filter.mp hmem).2
        simpa using this
      refine ⟨List.mem_of_mem_filter hmem, fun hk => ?_⟩
      rcases List.mem_cons.mp hk with rfl | hk2
      · exact absurd rfl hne
      · exact hrest hk2

theorem cleanupFold_false (p1 p2 : PState) (L : List (List Char)) (acc : SimState × Bool)
    (h : (L.foldl (cleanupStep p1 p2) acc).2 = false) :
    (L.foldl (cleanupStep p1 p2) acc).1 = acc.1 ∧ acc.2 = false := by
  induction L generalizing acc with
  | nil => exact ⟨rfl, h⟩
  | cons k0 rest ih =>
    rw [List.foldl_cons] at h ⊢
    obtain ⟨h1, h2⟩ := ih (cleanupStep p1 p2 acc k0) h
    rcases hsw : sweepDeletes acc.1.portalStates p1 p2 k0 with _ | _
    · have hacc : cleanupStep p1 p2 acc k0 = acc := by
        unfold cleanupStep
        rw [hsw]
        rfl
      rw [hacc] at h1 h2 ⊢
      exact ⟨h1, h2⟩
    · have hacc : cleanupStep p1 p2 acc k0 = delStep acc k0 := by
        unfold cleanupStep
        rw [hsw]
        rfl
      rw [hacc] at h1 h2 ⊢
      have hd : (deleteLink acc.1 k0).2 = false := by
        rcases hb : (deleteLink acc.1 k0).2 with _ | _
        · rfl
        · exact absurd h2 (by simp [delStep, hb])
      have hacc2 : acc.2 = false := by
        rcases hb : acc.2 with _ | _
        · rfl
        · exact absurd h2 (by simp [delStep, hb])
      refine ⟨?_, hacc2⟩
      rw [h1]
      show (deleteLink acc.1 k0).1 = acc.1
      exact deleteLink_false acc.1 k0 hd

theorem cleanupFold_links_le (p1 p2 : PState) (L : List (List Char))
    (acc : SimState × Bool) :
    ((L.foldl (cleanupStep p1 p2) acc).1).links.length ≤ acc.1.links.length := by
  induction L generalizing acc with
  | nil => exact le_refl _
  | cons k0 rest ih =>
    rw [List.foldl_cons]
    refine le_trans (ih _) ?_
    unfold cleanupStep
    split
    · exact deleteLink_links_le acc.1 k0
    · exact le_refl _

theorem cleanupFold_true_shrinks (p1 p2 : PState) (L : List (List Char))
    (acc : SimState × Bool) (hb : acc.2 = false)
    (h : (L.foldl (cleanupStep p1 p2) acc).2 = true) :
    ((L.foldl (cleanupStep p1 p2) acc).1).links.length < acc.1.links.length := by
  induction L generalizing acc with
  | nil =>
    rw [List.foldl_nil] at h
    rw [hb] at h
    exact absurd h (by simp)
  | cons k0 rest ih =>
    rw [List.foldl_cons] at h ⊢
    rcases hsw : sweepDeletes acc.1.portalStates p1 p2 k0 with _ | _
    · have hacc : cleanupStep p1 p2 acc k0 = acc := by
        unfold cleanupStep
        rw [hsw]
        rfl
      rw [hacc] at h ⊢
      exact ih acc hb h
    · have hacc : cleanupStep p1 p2 acc k0 = delStep acc k0 := by
        unfold cleanupStep
        rw [hsw]
        rfl
      rw [hacc] at h ⊢
      rcases hd : (deleteLink acc.1 k0).2 with _ | _
      · have hstep : delStep acc k0 = (acc.1, false) := by
          show ((deleteLink acc.1 k0).1, acc.2 || (deleteLink acc.1 k0).2) = (acc.1, false)
          rw [deleteLink_false acc.1 k0 hd, hb, hd]
          rfl
        rw [hstep] at h ⊢
        exact ih (acc.1, false) rfl h
      · calc ((rest.foldl (cleanupStep p1 p2) (delStep acc k0)).1).links.length
            ≤ (delStep acc k0).1.links.length := cleanupFold_links_le p1 p2 rest _
          _ = (deleteLink acc.1 k0).1.links.length := rfl
          _ < acc.1.links.length := deleteLink_true_shrinks acc.1 k0 hd

theorem cleanupFold_fields_sub (p1 p2 : PState) (L : List (List Char))
    (acc : SimState × Bool) :
    ∀ f ∈ ((L.foldl (cleanupStep p1 p2) acc).1).fields, f ∈ acc.1.fields := by
  induction L generalizing acc with
  | nil => exact fun f hf => hf
  | cons k0 rest ih =>
    intro f hf
    rw [List.foldl_cons] at hf
    have := ih (cleanupStep p1 p2 acc k0) f hf
    revert this
    unfold cleanupStep
    split
    · exact fun hthis => deleteLink_fields_sub acc.1 k0 f hthis
    · exact fun hthis => hthis

theorem cleanup_portalStates (st : SimState) (id1 id2 : List Char) :
    (cleanupCrossedLinks st id1 id2).1.portalStates = st.portalStates := by
  unfold cleanupCrossedLinks
  rcases mfind st.portalStates id1 with _ | p1 <;>
    rcases mfind st.portalStates id2 with _ | p2
  · rfl
  · rfl
  · rfl
  · exact cleanupFold_portalStates p1 p2 st.links (st, false)

theorem cleanup_resonators (st : SimState) (id1 id2 : List Char) :
    (cleanupCrossedLinks st id1 id2).1.portalResonators = st.portalResonators := by
  unfold cleanupCrossedLinks
  rcases mfind st.portalStates id1 with _ | p1 <;>
    rcases mfind st.portalStates id2 with _ | p2
  · rfl
  · rfl
  · rfl
  · exact cleanupFold_resonators p1 p2 st.links (st, false)

theorem cleanup_mem (st : SimState) (id1 id2 : List Char) (p1 p2 : PState)
    (hp1 : mfind st.portalStates id1 = some p1)
    (hp2 : mfind st.portalStates id2 = some p2) (k' : List Char)
    (h : k' ∈ (cleanupCrossedLinks st id1 id2).1.links) :
    k' ∈ st.links ∧ sweepDeletes st.portalStates p1 p2 k' = false := by
  unfold cleanupCrossedLinks at h
  rw [hp1, hp2] at h
  obtain ⟨hmem, hsw⟩ := cleanupFold_mem p1 p2 st.links (st, false) k' h
  exact ⟨hmem, hsw hmem⟩

theorem cleanup_fields_sub (st : SimState) (id1 id2 : List Char) :
    ∀ f ∈ (cleanupCrossedLinks st id1 id2).1.fields, f ∈ st.fields := by
  unfold cleanupCrossedLinks
  rcases mfind st.portalStates id1 with _ | p1 <;>
    rcases mfind st.portalStates id2 with _ | p2
  · exact fun f hf => hf
  · exact fun f hf => hf
  · exact fun f hf => hf
  · exact cleanupFold_fields_sub p1 p2 st.links (st, false)

theorem cleanup_links_sub (st : SimState) (id1 id2 : List Char) :
    ∀ k ∈ (cleanupCrossedLinks st id1 id2).1.links, k ∈ st.links := by
  unfold cleanupCrossedLinks
  rcases mfind st.portalStates id1 with _ | p1 <;>
    rcases mfind st.portalStates id2 with _ | p2
  · exact fun k hk => hk
  · exact fun k hk => hk
  · exact fun k hk => hk
  · exact fun k hk => (cleanupFold_mem p1 p2 st.links (st, false) k hk).1

theorem cleanup_false (st : SimState) (id1 id2 : List Char)
    (h : (cleanupCrossedLinks st id1 id2).2 = false) :
    (cleanupCrossedLinks st id1 id2).1 = st := by
  unfold cleanupCrossedLinks at h ⊢
  rcases hp1 : mfind st.portalStates id1 with _ | p1
  · rfl
  · rcases hp2 : mfind st.portalStates id2 with _ | p2
    · rfl
    · rw [hp1, hp2] at h
      exact (cleanupFold_false p1 p2 st.links (st, false) h).1

theorem cleanup_true (st : SimState) (id1 id2 : List Char)
    (h : (cleanupCrossedLinks st id1 id2).2 = true) :
    (cleanupCrossedLinks st id1 id2).1.links.length < st.links.length := by
  unfold cleanupCrossedLinks at h ⊢
  rcases hp1 : mfind st.portalStates id1 with _ | p1
  · rw [hp1] at h
    exact absurd h (by simp)
  · rcases hp2 : mfind st.portalStates id2 with _ | p2
    · rw [hp1, hp2] at h
      exact absurd h (by simp)
    · rw [hp1, hp2] at h
      exact cleanupFold_true_shrinks p1 p2 st.links (st, false) rfl h

/-! ## General lemmas: `detectAndCreateFields` and `pickLargest` -/

theorem simStateExt (a b : SimState) (h1 : a.portalStates = b.portalStates)
    (h2 : a.links = b.links) (h3 : a.fields = b.fields)
    (h4 : a.portalResonators = b.portalResonators) : a = b := by
  cases a
  cases b
  simp only [SimState.mk.injEq]
  exact ⟨h1, h2, h3, h4⟩

theorem detect_portalStates (st : SimState) (id1 id2 : List Char) (tm : Option String) :
    (detectAndCreateFields st id1 id2 tm).1.portalStates = st.portalStates := by
  unfold detectAndCreateFields
  rcases mfind st.portalStates id1 with _ | p1
  · rfl
  · rcases mfind st.portalStates id2 with _ | p2
    · rfl
    · dsimp only
      split <;> rfl

theorem detect_links (st : SimState) (id1 id2 : List Char) (tm : Option String) :
    (detectAndCreateFields st id1 id2 tm).1.links = st.links := by
  unfold detectAndCreateFields
  rcases mfind st.portalStates id1 with _ | p1
  · rfl
  · rcases mfind st.portalStates id2 with _ | p2
    · rfl
    · dsimp only
      split <;> rfl

theorem detect_resonators (st : SimState) (id1 id2 : List Char) (tm : Option String) :
    (detectAndCreateFields st id1 id2 tm).1.portalResonators = st.portalResonators := by
  unfold detectAndCreateFields
  rcases mfind st.portalStates id1 with _ | p1
  · rfl
  · rcases mfind st.portalStates id2 with _ | p2
    · rfl
    · dsimp only
      split <;> rfl

theorem detect_nonempty (st : SimState) (id1 id2 : List Char) (tm : Option String)
    (p1 p2 : PState) (hp1 : mfind st.portalStates id1 = some p1)
    (hp2 : mfind st.portalStates id2 = some p2)
    (he : (commonNeighborsOf st id1 id2).isEmpty = false) :
    detectAndCreateFields st id1 id2 tm =
      ({ st with fields := st.fields ++
          winnerList (sideCandidates st p1 p2 id1 id2 tm).1 ++
          winnerList (sideCandidates st p1 p2 id1 id2 tm).2 },
        !(sideCandidates st p1 p2 id1 id2 tm).1.isEmpty ||
          !(sideCandidates st p1 p2 id1 id2 tm).2.isEmpty) := by
  unfold detectAndCreateFields
  rw [hp1, hp2]
  dsimp only
  rw [he]
  rfl

theorem detect_empty (st : SimState) (id1 id2 : List Char) (tm : Option String)
    (p1 p2 : PState) (hp1 : mfind st.portalStates id1 = some p1)
    (hp2 : mfind st.portalStates id2 = some p2)
    (he : (commonNeighborsOf st id1 id2).isEmpty = true) :
    detectAndCreateFields st id1 id2 tm = (st, false) := by
  unfold detectAndCreateFields
  rw [hp1, hp2]
  dsimp only
  rw [he]
  rfl

theorem detect_false (st : SimState) (id1 id2 : List Char) (tm : Option String)
    (h : (detectAndCreateFields st id1 id2 tm).2 = false) :
    (detectAndCreateFields st id1 id2 tm).1 = st := by
  unfold detectAndCreateFields at h ⊢
  rcases hp1 : mfind st.portalStates id1 with _ | p1
  · rfl
  · rcases hp2 : mfind st.portalStates id2 with _ | p2
    · rfl
    · rw [hp1, hp2] at h
      dsimp only at h ⊢
      rcases he : (commonNeighborsOf st id1 id2).isEmpty with _ | _
      · rw [he] at h
        rw [if_neg (by simp)] at h ⊢
        rw [Bool.or_eq_false_iff] at h
        obtain ⟨hl, hr⟩ := h
        rw [Bool.not_eq_false'] at hl hr
        refine simStateExt _ _ rfl rfl ?_ rfl
        have hwl : winnerList (sideCandidates st p1 p2 id1 id2 tm).1 = [] := by
          rw [List.isEmpty_iff.mp hl]
          rfl
        have hwr : winnerList (sideCandidates st p1 p2 id1 id2 tm).2 = [] := by
          rw [List.isEmpty_iff.mp hr]
          rfl
        show st.fields ++ winnerList (sideCandidates st p1 p2 id1 id2 tm).1 ++
          winnerList (sideCandidates st p1 p2 id1 id2 tm).2 = st.fields
        rw [hwl, hwr, List.append_nil, List.append_nil]
      · rw [if_pos rfl]

/-- The winner of one side is the *first* candidate of maximal area: the
list splits as `l1 ++ w :: l2` with every element of `l1` strictly smaller
and every element of the whole list no larger.  This is exactly "largest
area, ties broken by encounter order", the behaviour of the stable
descending sort plus `[0]`. -/
theorem pickLargest_spec (c : FieldC) (cs : List FieldC) :
    ∃ l1 w l2, c :: cs = l1 ++ w :: l2 ∧ pickLargest (c :: cs) = some w ∧
      (∀ d ∈ c :: cs, d.area ≤ w.area) ∧ (∀ d ∈ l1, d.area < w.area) := by
  induction cs generalizing c with
  | nil =>
    refine ⟨[], c, [], rfl, rfl, ?_, by simp⟩
    intro d hd
    rw [List.mem_singleton.mp hd]
  | cons x cs2 ih =>
    have hfold : pickLargest (c :: x :: cs2) =
        pickLargest ((if x.area > c.area then x else c) :: cs2) := rfl
    by_cases hx : x.area > c.area
    · rw [if_pos hx] at hfold
      obtain ⟨l1, w, l2, hsplit, hpick, hall, hstrict⟩ := ih x
      rcases l1 with _ | ⟨h1, t1⟩
      · rw [List.nil_append] at hsplit
        obtain ⟨rfl, rfl⟩ := List.cons.inj hsplit
        refine ⟨[c], x, cs2, by simp, by rw [hfold, hpick], ?_, ?_⟩
        · intro d hd
          rcases List.mem_cons.mp hd with rfl | hd2
          · exact le_of_lt hx
          · exact hall d hd2
        · intro d hd
          rw [List.mem_singleton.mp hd]
          exact hx
      · rw [List.cons_append] at hsplit
        obtain ⟨rfl, hsplit2⟩ := List.cons.inj hsplit
        refine ⟨c :: x :: t1, w, l2,
          by rw [List.cons_append, List.cons_append, hsplit2], by rw [hfold, hpick], ?_, ?_⟩
        · intro d hd
          rcases List.mem_cons.mp hd with rfl | hd2
          · exact le_trans (le_of_lt hx) (hall x (List.mem_cons_self x cs2))
          · exact hall d hd2
        · intro d hd
          rcases List.mem_cons.mp hd with rfl | hd2
          · exact lt_of_lt_of_le hx (le_of_lt (hstrict x (List.mem_cons_self x t1)))
          · exact hstrict d hd2
    · rw [if_neg hx] at hfold
      push_neg at hx
      obtain ⟨l1, w, l2, hsplit, hpick, hall, hstrict⟩ := ih c
      rcases l1 with _ | ⟨h1, t1⟩
      · rw [List.nil_append] at hsplit
        obtain ⟨rfl, rfl⟩ := List.cons.inj hsplit
        refine ⟨[], c, x :: cs2, by simp, by rw [hfold, hpick], ?_, by simp⟩
        intro d hd
        rcases List.mem_cons.mp hd with rfl | hd2
        · exact le_refl _
        · rcases List.mem_cons.mp hd2 with rfl | hd3
          · exact hx
          · exact hall d (List.mem_cons_of_mem _ hd3)
      · rw [List.cons_append] at hsplit
        obtain ⟨rfl, hsplit2⟩ := List.cons.inj hsplit
        have hcw : c.area < w.area := hstrict c (List.mem_cons_self c t1)
        refine ⟨c :: x :: t1, w, l2,
          by rw [List.cons_append, List.cons_append, hsplit2], by rw [hfold, hpick], ?_, ?_⟩
        · intro d hd
          rcases List.mem_cons.mp hd with rfl | hd2
          · exact le_of_lt hcw
          · rcases List.mem_cons.mp hd2 with rfl | hd3
            · exact le_trans hx (le_of_lt hcw)
            · exact hall d (List.mem_cons_of_mem _ hd3)
        · intro d hd
          rcases List.mem_cons.mp hd with rfl | hd2
          · exact hcw
          · rcases List.mem_cons.mp hd2 with rfl | hd3
            · exact lt_of_le_of_lt hx hcw
            · exact hstrict d (List.mem_cons_of_mem _ hd3)

/-! ## General lemmas: `processAction` dispatch and sections -/

theorem teamOf_cases (a : Action) :
    teamOf a = none ∨ teamOf a = some "RES" ∨ teamOf a = some "ENL" := by
  unfold teamOf
  split
  · exact Or.inr (Or.inl rfl)
  · split
    · exact Or.inr (Or.inr rfl)
    · exact Or.inl rfl

theorem teamOf_ne_neutral (a : Action) : teamOf a ≠ some "NEUTRAL" := by
  rcases teamOf_cases a with h | h | h <;> rw [h] <;> simp

theorem processAction_eq_linkDestroy (st : SimState) (a : Action)
    (h1 : a.type = "link") (h2 : a.action = destroyV) :
    processAction st a = explicitLinkDestroy st a := by
  unfold processAction
  rw [if_pos ⟨h1, h2⟩]

theorem processAction_eq_reso (st : SimState) (a : Action)
    (h1 : a.action = destroyV) (h2 : a.type = "reso") :
    processAction st a = resoDestroy st a := by
  unfold processAction
  rw [if_neg (fun hc => by rw [h2] at hc; exact absurd hc.1 (by decide)),
    if_pos ⟨h1, h2⟩]

theorem processAction_eq_link (st : SimState) (a : Action)
    (h1 : a.type = "link") (h2 : a.action ≠ destroyV) :
    processAction st a =
      linkSection (deploySection st a).1 (deploySection st a).2 a := by
  unfold processAction
  rw [if_neg (fun hc => h2 hc.2), if_neg (fun hc => h2 hc.1), if_pos h1]

theorem processAction_eq_beacon (st : SimState) (a : Action)
    (h1 : a.type ≠ "link") (h2 : ¬(a.action = destroyV ∧ a.type = "reso"))
    (h3 : jsStartsWith wonV a.action = true) :
    processAction st a =
      beaconSection (deploySection st a).1 (deploySection st a).2 a := by
  unfold processAction
  rw [if_neg (fun hc => h1 hc.1), if_neg h2, if_neg h1, if_pos h3]

theorem processAction_eq_deploy (st : SimState) (a : Action)
    (h1 : a.type ≠ "link") (h2 : ¬(a.action = destroyV ∧ a.type = "reso"))
    (h3 : jsStartsWith wonV a.action = false) :
    processAction st a = deploySection st a := by
  unfold processAction
  rw [if_neg (fun hc => h1 hc.1), if_neg h2, if_neg h1,
    if_neg (by rw [h3]; exact Bool.false_ne_true)]

/-! ### `explicitLinkDestroy` -/

theorem eLD_portalStates (st : SimState) (a : Action) :
    (explicitLinkDestroy st a).1.portalStates = st.portalStates := by
  unfold explicitLinkDestroy
  rcases a.portal_id with _ | s1
  · rfl
  · rcases a.target_portal_id with _ | s2
    · rfl
    · dsimp only
      split
      · exact deleteLink_portalStates st _
      · rfl

theorem eLD_resonators (st : SimState) (a : Action) :
    (explicitLinkDestroy st a).1.portalResonators = st.portalResonators := by
  unfold explicitLinkDestroy
  rcases a.portal_id with _ | s1
  · rfl
  · rcases a.target_portal_id with _ | s2
    · rfl
    · dsimp only
      split
      · exact deleteLink_resonators st _
      · rfl

theorem eLD_links_sub (st : SimState) (a : Action) :
    ∀ k ∈ (explicitLinkDestroy st a).1.links, k ∈ st.links := by
  unfold explicitLinkDestroy
  rcases a.portal_id with _ | s1
  · exact fun k hk => hk
  · rcases a.target_portal_id with _ | s2
    · exact fun k hk => hk
    · dsimp only
      split
      · intro k hk
        rw [deleteLink_links_eq] at hk
        exact List.mem_of_mem_filter hk
      · exact fun k hk => hk

theorem eLD_fields_sub (st : SimState) (a : Action) :
    ∀ f ∈ (explicitLinkDestroy st a).1.fields, f ∈ st.fields := by
  unfold explicitLinkDestroy
  rcases a.portal_id with _ | s1
  · exact fun f hf => hf
  · rcases a.target_portal_id with _ | s2
    · exact fun f hf => hf
    · dsimp only
      split
      · exact deleteLink_fields_sub st _
      · exact fun f hf => hf

theorem eLD_false (st : SimState) (a : Action)
    (h : (explicitLinkDestroy st a).2 = false) : (explicitLinkDestroy st a).1 = st := by
  unfold explicitLinkDestroy at h ⊢
  rcases h1 : a.portal_id with _ | s1
  · rfl
  · rcases h2 : a.target_portal_id with _ | s2
    · rfl
    · rw [h1, h2] at h
      dsimp only at h ⊢
      by_cases hc : (!s1.isEmpty && !s2.isEmpty) = true
      · rw [if_pos hc] at h ⊢
        exact deleteLink_false st _ h
      · rw [if_neg hc]

theorem eLD_true (st : SimState) (a : Action)
    (h : (explicitLinkDestroy st a).2 = true) :
    (explicitLinkDestroy st a).1.links.length < st.links.length := by
  unfold explicitLinkDestroy at h ⊢
  rcases h1 : a.portal_id with _ | s1
  · rw [h1] at h
    exact absurd h (by simp)
  · rcases h2 : a.target_portal_id with _ | s2
    · rw [h1, h2] at h
      exact absurd h (by simp)
    · rw [h1, h2] at h
      dsimp only at h ⊢
      by_cases hc : (!s1.isEmpty && !s2.isEmpty) = true
      · rw [if_pos hc] at h ⊢
        exact deleteLink_true_shrinks st _ h
      · rw [if_neg hc] at h
        exact absurd h (by simp)

/-! ### `resoDestroy` -/

theorem resoCount_collapse (c0 : Nat) :
    (if (if c0 = 0 then 8 else c0) > 0 then (if c0 = 0 then 8 else c0) - 1
      else (if c0 = 0 then 8 else c0)) = if c0 = 0 then 7 else c0 - 1 := by
  by_cases h : c0 = 0
  · simp [h]
  · simp only [if_neg h]
    rw [if_pos (Nat.pos_of_ne_zero h)]

/-- Full characterization of the resonator-destroy branch on a known
catalog portal. -/
theorem resoDestroy_spec (st : SimState) (a : Action) (s1 : List Char)
    (hid : a.portal_id = some s1) (hhas : mhas st.portalStates s1 = true) :
    resoDestroy st a =
      (let cur1 := if (mfind st.portalResonators s1).getD 0 = 0 then 7
        else (mfind st.portalResonators s1).getD 0 - 1
       let st1 : SimState :=
         { st with portalResonators := mset st.portalResonators s1 cur1 }
       let r2 := if cur1 ≤ 2 then removeLinksAttachedTo st1 s1 else (st1, false)
       let r3 := if cur1 = 0 then
           setPortalTeam { r2.1 with portalResonators := mset r2.1.portalResonators s1 0 }
             s1 (some "NEUTRAL")
         else (r2.1, false)
       (r3.1, r2.2 || r3.2)) := by
  unfold resoDestroy
  rw [hid]
  dsimp only
  rw [hhas, if_pos rfl]
  rw [resoCount_collapse]

/-! ### `deploySection` -/

theorem deploy_false (st : SimState) (a : Action)
    (h : (deploySection st a).2 = false) :
    (deploySection st a).1.portalStates = st.portalStates ∧
      (deploySection st a).1.links = st.links ∧
      (deploySection st a).1.fields = st.fields := by
  unfold deploySection at h ⊢
  rcases ht : teamOf a with _ | t
  · exact ⟨rfl, rfl, rfl⟩
  · rcases h1 : a.portal_id with _ | s1
    · exact ⟨rfl, rfl, rfl⟩
    · rw [ht, h1] at h
      dsimp only at h ⊢
      by_cases hs : (!s1.isEmpty) = true
      · rw [if_pos hs] at h ⊢
        rcases hcs : mfind st.portalStates s1 with _ | cs
        · rw [hcs] at h
          exact ⟨rfl, rfl, rfl⟩
        · rw [hcs] at h
          dsimp only at h ⊢
          by_cases hdep : (jsIncludes deployV a.action ||
              jsIncludes capturedV a.action) = true
          · rw [if_pos hdep] at h ⊢
            by_cases hflip : cs.team ≠ some "NEUTRAL" ∧ cs.team ≠ some t
            · rw [if_pos hflip] at h
              exact absurd h (by simp)
            · rw [if_neg hflip] at h ⊢
              by_cases hneu : cs.team = some "NEUTRAL"
              · rw [if_pos hneu] at h
                exact absurd h (by simp)
              · rw [if_neg hneu] at h ⊢
                dsimp only at h ⊢
                split <;> exact ⟨rfl, rfl, rfl⟩
          · rw [if_neg hdep]
            exact ⟨rfl, rfl, rfl⟩
      · rw [if_neg hs]
        exact ⟨rfl, rfl, rfl⟩

theorem deploy_resonators_only_false (st : SimState) (a : Action)
    (h : (deploySection st a).2 = false) :
    ∃ r, (deploySection st a).1 = { st with portalResonators := r } := by
  obtain ⟨h1, h2, h3⟩ := deploy_false st a h
  refine ⟨(deploySection st a).1.portalResonators, ?_⟩
  apply simStateExt <;> simp [h1, h2, h3]

theorem deploy_true (st : SimState) (a : Action)
    (h : (deploySection st a).2 = true) :
    ∃ s1 t cs, teamOf a = some t ∧ a.portal_id = some s1 ∧
      mfind st.portalStates s1 = some cs ∧ cs.team ≠ some t ∧
      mfind (deploySection st a).1.portalStates s1 =
        some { cs with team := some t } := by
  unfold deploySection at h ⊢
  rcases ht : teamOf a with _ | t
  · rw [ht] at h
    exact absurd h (by simp)
  · rcases h1 : a.portal_id with _ | s1
    · rw [ht, h1] at h
      exact absurd h (by simp)
    · rw [ht, h1] at h
      dsimp only at h ⊢
      by_cases hs : (!s1.isEmpty) = true
      · rw [if_pos hs] at h ⊢
        rcases hcs : mfind st.portalStates s1 with _ | cs
        · rw [hcs] at h
          exact absurd h (by simp)
        · rw [hcs] at h
          dsimp only at h ⊢
          by_cases hdep : (jsIncludes deployV a.action ||
              jsIncludes capturedV a.action) = true
          · rw [if_pos hdep] at h ⊢
            by_cases hflip : cs.team ≠ some "NEUTRAL" ∧ cs.team ≠ some t
            · rw [if_pos hflip]
              have hset : setPortalTeam st s1 (some t) =
                  (⟨mset st.portalStates s1 { cs with team := some t },
                    st.links, st.fields, st.portalResonators⟩, true) := by
                unfold setPortalTeam
                rw [hcs]
                dsimp only
                rw [if_pos hflip.2]
              refine ⟨s1, t, cs, rfl, rfl, hcs, hflip.2, ?_⟩
              dsimp only
              rw [removeLinks_portalStates, hset]
              exact mfind_mset_self _ _ _
            · rw [if_neg hflip] at h ⊢
              by_cases hneu : cs.team = some "NEUTRAL"
              · rw [if_pos hneu]
                have htne : ("NEUTRAL" : String) ≠ t := by
                  rcases teamOf_cases a with hc | hc | hc <;> rw [ht] at hc
                  · exact absurd hc (by simp)
                  · obtain rfl := Option.some.inj hc
                    decide
                  · obtain rfl := Option.some.inj hc
                    decide
                have hcsne : cs.team ≠ some t := by
                  rw [hneu]
                  intro hq
                  exact htne (Option.some.inj hq)
                have hset : setPortalTeam st s1 (some t) =
                    (⟨mset st.portalStates s1 { cs with team := some t },
                      st.links, st.fields, st.portalResonators⟩, true) := by
                  unfold setPortalTeam
                  rw [hcs]
                  dsimp only
                  rw [if_pos hcsne]
                refine ⟨s1, t, cs, rfl, rfl, hcs, hcsne, ?_⟩
                dsimp only
                rw [hset]
                exact mfind_mset_self _ _ _
              · rw [if_neg hneu] at h
                dsimp only at h
                exact absurd h (by simp)
          · rw [if_neg hdep] at h
            exact absurd h (by simp)
      · rw [if_neg hs] at h
        exact absurd h (by simp)

theorem deploy_links_sub (st : SimState) (a : Action) :
    ∀ k ∈ (deploySection st a).1.links, k ∈ st.links := by
  unfold deploySection
  rcases ht : teamOf a with _ | t
  · exact fun k hk => hk
  · rcases h1 : a.portal_id with _ | s1
    · exact fun k hk => hk
    · dsimp only
      by_cases hs : (!s1.isEmpty) = true
      · rw [if_pos hs]
        rcases hcs : mfind st.portalStates s1 with _ | cs
        · exact fun k hk => hk
        · dsimp only
          by_cases hdep : (jsIncludes deployV a.action ||
              jsIncludes capturedV a.action) = true
          · rw [if_pos hdep]
            by_cases hflip : cs.team ≠ some "NEUTRAL" ∧ cs.team ≠ some t
            · rw [if_pos hflip]
              intro k hk
              dsimp only at hk
              have h2 : k ∈ (removeLinksAttachedTo (setPortalTeam st s1 (some t)).1
                  s1).1.links := hk
              rw [removeLinks_links] at h2
              have := List.mem_of_mem_filter h2
              rw [setPortalTeam_links] at this
              exact this
            · rw [if_neg hflip]
              by_cases hneu : cs.team = some "NEUTRAL"
              · rw [if_pos hneu]
                intro k hk
                dsimp only at hk
                rw [setPortalTeam_links] at hk
                exact hk
              · rw [if_neg hneu]
                dsimp only
                intro k hk
                split at hk <;> exact hk
          · rw [if_neg hdep]
            exact fun k hk => hk
      · rw [if_neg hs]
        exact fun k hk => hk

theorem deploy_fields_sub (st : SimState) (a : Action) :
    ∀ f ∈ (deploySection st a).1.fields, f ∈ st.fields := by
  unfold deploySection
  rcases ht : teamOf a with _ | t
  · exact fun f hf => hf
  · rcases h1 : a.portal_id with _ | s1
    · exact fun f hf => hf
    · dsimp only
      by_cases hs : (!s1.isEmpty) = true
      · rw [if_pos hs]
        rcases hcs : mfind st.portalStates s1 with _ | cs
        · exact fun f hf => hf
        · dsimp only
          by_cases hdep : (jsIncludes deployV a.action ||
              jsIncludes capturedV a.action) = true
          · rw [if_pos hdep]
            by_cases hflip : cs.team ≠ some "NEUTRAL" ∧ cs.team ≠ some t
            · rw [if_pos hflip]
              intro f hf
              dsimp only at hf
              have h2 : f ∈ (removeLinksAttachedTo (setPortalTeam st s1 (some t)).1
                  s1).1.fields := hf
              have := removeLinks_fields_sub _ _ f h2
              rw [setPortalTeam_fields] at this
              exact this
            · rw [if_neg hflip]
              by_cases hneu : cs.team = some "NEUTRAL"
              · rw [if_pos hneu]
                intro f hf
                dsimp only at hf
                rw [setPortalTeam_fields] at hf
                exact hf
              · rw [if_neg hneu]
                dsimp only
                intro f hf
                split at hf <;> exact hf
          · rw [if_neg hdep]
            exact fun f hf => hf
      · rw [if_neg hs]
        exact fun f hf => hf

theorem deploy_geoView (st : SimState) (a : Action) (k : List Char) :
    geoView (deploySection st a).1.portalStates k = geoView st.portalStates k := by
  unfold deploySection
  rcases ht : teamOf a with _ | t
  · rfl
  · rcases h1 : a.portal_id with _ | s1
    · rfl
    · dsimp only
      by_cases hs : (!s1.isEmpty) = true
      · rw [if_pos hs]
        rcases hcs : mfind st.portalStates s1 with _ | cs
        · rfl
        · dsimp only
          by_cases hdep : (jsIncludes deployV a.action ||
              jsIncludes capturedV a.action) = true
          · rw [if_pos hdep]
            by_cases hflip : cs.team ≠ some "NEUTRAL" ∧ cs.team ≠ some t
            · rw [if_pos hflip]
              show geoView (removeLinksAttachedTo (setPortalTeam st s1 (some t)).1
                  s1).1.portalStates k = _
              rw [removeLinks_portalStates]
              exact setPortalTeam_geoView st s1 (some t) k
            · rw [if_neg hflip]
              by_cases hneu : cs.team = some "NEUTRAL"
              · rw [if_pos hneu]
                exact setPortalTeam_geoView st s1 (some t) k
              · rw [if_neg hneu]
                dsimp only
                split <;> rfl
          · rw [if_neg hdep]
      · rw [if_neg hs]

/-! ### `linkSection` -/

theorem mem_addLink (L : List (List Char)) (k : List Char) :
    k ∈ (if k ∈ L then L else L ++ [k]) := by
  split
  · assumption
  · exact List.mem_append_right L (List.mem_singleton.mpr rfl)

theorem addLink_sub (L : List (List Char)) (k x : List Char)
    (h : x ∈ (if k ∈ L then L else L ++ [k])) : x ∈ L ∨ x = k := by
  split at h
  · exact Or.inl h
  · rcases List.mem_append.mp h with h2 | h2
    · exact Or.inl h2
    · exact Or.inr (List.mem_singleton.mp h2)

theorem link_false (st : SimState) (ch : Bool) (a : Action)
    (h : (linkSection st ch a).2 = false) :
    ch = false ∧ (linkSection st ch a).1 = st := by
  unfold linkSection at h ⊢
  rcases h1 : a.portal_id with _ | s1
  · rw [h1] at h
    exact ⟨h, rfl⟩
  · rcases h2 : a.target_portal_id with _ | s2
    · rw [h1, h2] at h
      exact ⟨h, rfl⟩
    · rcases ht : teamOf a with _ | t
      · rw [h1, h2, ht] at h
        exact ⟨h, rfl⟩
      · rw [h1, h2, ht] at h
        dsimp only at h ⊢
        by_cases hg : (!s1.isEmpty && !s2.isEmpty) = true
        · rw [if_pos hg] at h ⊢
          by_cases hmem : getLinkKey s1 s2 ∈
              (setPortalTeam (setPortalTeam st s1 (some t)).1 s2 (some t)).1.links
          · rw [if_pos hmem] at h ⊢
            simp only [Bool.or_eq_false_iff] at h
            obtain ⟨⟨hch, hA⟩, hB⟩ := h
            refine ⟨hch, ?_⟩
            rw [setPortalTeam_false _ _ _ hB, setPortalTeam_false _ _ _ hA]
          · rw [if_neg hmem] at h
            exact absurd h (by simp)
        · rw [if_neg hg] at h ⊢
          exact ⟨h, rfl⟩

theorem link_true (st : SimState) (ch : Bool) (a : Action)
    (h : (linkSection st ch a).2 = true) :
    ch = true ∨ ¬ visibleEq (linkSection st ch a).1 st := by
  unfold linkSection at h ⊢
  rcases h1 : a.portal_id with _ | s1
  · rw [h1] at h
    exact Or.inl h
  · rcases h2 : a.target_portal_id with _ | s2
    · rw [h1, h2] at h
      exact Or.inl h
    · rcases ht : teamOf a with _ | t
      · rw [h1, h2, ht] at h
        exact Or.inl h
      · rw [h1, h2, ht] at h
        dsimp only at h ⊢
        by_cases hg : (!s1.isEmpty && !s2.isEmpty) = true
        · rw [if_pos hg] at h ⊢
          by_cases hmem : getLinkKey s1 s2 ∈
              (setPortalTeam (setPortalTeam st s1 (some t)).1 s2 (some t)).1.links
          · rw [if_pos hmem] at h ⊢
            dsimp only at h ⊢
            simp only [Bool.or_eq_true] at h
            rcases h with (hch | hA) | hB
            · exact Or.inl hch
            · right
              obtain ⟨p, hp, hpne, hps⟩ := setPortalTeam_true st s1 (some t) hA
              intro hvis
              have hfin : mfind (setPortalTeam (setPortalTeam st s1 (some t)).1 s2
                  (some t)).1.portalStates s1 = some { p with team := some t } := by
                by_cases hss : s2 = s1
                · subst hss
                  have hq : mfind (setPortalTeam st s2 (some t)).1.portalStates s2 =
                      some { p with team := some t } := by
                    rw [hps]
                    exact mfind_mset_self _ _ _
                  rw [setPortalTeam_noop _ _ _ _ hq rfl]
                  exact hq
                · rw [setPortalTeam_mfind_other _ _ _ _ hss, hps]
                  exact mfind_mset_self _ _ _
              rw [hvis.1] at hfin
              rw [hp] at hfin
              exact hpne (congrArg PState.team (Option.some.inj hfin))
            · right
              obtain ⟨q, hq, hqne, hqs⟩ := setPortalTeam_true _ s2 (some t) hB
              intro hvis
              have hfin : mfind (setPortalTeam (setPortalTeam st s1 (some t)).1 s2
                  (some t)).1.portalStates s2 = some { q with team := some t } := by
                rw [hqs]
                exact mfind_mset_self _ _ _
              have hq0 : mfind st.portalStates s2 = some q ∨
                  (q.team = some t) := by
                rcases setPortalTeam_mfind_cases st s1 (some t) s2 q hq with hc | hc
                · exact Or.inl hc
                · exact Or.inr hc.2.1
              rcases hq0 with hq0 | hq0
              · rw [hvis.1, hq0] at hfin
                exact hqne (congrArg PState.team (Option.some.inj hfin))
              · exact hqne hq0
          · rw [if_neg hmem] at h ⊢
            dsimp only at h ⊢
            right
            intro hvis
            have hlinks := hvis.2.1
            rw [detect_links] at hlinks
            dsimp only at hlinks
            have hin : getLinkKey s1 s2 ∈ st.links := by
              rw [← hlinks]
              exact mem_addLink _ _
            rw [setPortalTeam_links, setPortalTeam_links] at hmem
            exact hmem hin
        · rw [if_neg hg] at h ⊢
          exact Or.inl h

theorem link_team_preserved (st : SimState) (ch : Bool) (a : Action) (x : List Char)
    (q : PState) (t : String) (ht : teamOf a = some t)
    (hq : mfind st.portalStates x = some q) (hteam : q.team = some t) :
    mfind (linkSection st ch a).1.portalStates x = some q := by
  unfold linkSection
  rcases h1 : a.portal_id with _ | s1
  · exact hq
  · rcases h2 : a.target_portal_id with _ | s2
    · exact hq
    · rw [ht]
      dsimp only
      by_cases hg : (!s1.isEmpty && !s2.isEmpty) = true
      · rw [if_pos hg]
        have hA : mfind (setPortalTeam st s1 (some t)).1.portalStates x = some q := by
          by_cases hsx : s1 = x
          · subst hsx
            rw [setPortalTeam_noop st s1 (some t) q hq hteam]
            exact hq
          · rw [setPortalTeam_mfind_other st s1 (some t) x hsx]
            exact hq
        have hB : mfind (setPortalTeam (setPortalTeam st s1 (some t)).1 s2
            (some t)).1.portalStates x = some q := by
          by_cases hsx : s2 = x
          · subst hsx
            rw [setPortalTeam_noop _ s2 (some t) q hA hteam]
            exact hA
          · rw [setPortalTeam_mfind_other _ s2 (some t) x hsx]
            exact hA
        split
        · exact hB
        · show mfind (detectAndCreateFields _ s1 s2 (some t)).1.portalStates x = some q
          rw [detect_portalStates]
          dsimp only
          rw [cleanup_portalStates]
          exact hB
      · rw [if_neg hg]
        exact hq

theorem link_geoView (st : SimState) (ch : Bool) (a : Action) (k : List Char) :
    geoView (linkSection st ch a).1.portalStates k = geoView st.portalStates k := by
  unfold linkSection
  rcases h1 : a.portal_id with _ | s1
  · rfl
  · rcases h2 : a.target_portal_id with _ | s2
    · rfl
    · rcases ht : teamOf a with _ | t
      · rfl
      · dsimp only
        by_cases hg : (!s1.isEmpty && !s2.isEmpty) = true
        · rw [if_pos hg]
          have hAB : geoView (setPortalTeam (setPortalTeam st s1 (some t)).1 s2
              (some t)).1.portalStates k = geoView st.portalStates k := by
            rw [setPortalTeam_geoView, setPortalTeam_geoView]
          split
          · exact hAB
          · show geoView (detectAndCreateFields _ s1 s2 (some t)).1.portalStates k = _
            rw [detect_portalStates]
            dsimp only
            rw [cleanup_portalStates]
            exact hAB
        · rw [if_neg hg]

theorem link_links_mem (st : SimState) (ch : Bool) (a : Action) :
    ∀ k ∈ (linkSection st ch a).1.links, k ∈ st.links ∨
      ∃ s1 s2 t, a.portal_id = some s1 ∧ a.target_portal_id = some s2 ∧
        teamOf a = some t ∧ k = getLinkKey s1 s2 := by
  unfold linkSection
  rcases h1 : a.portal_id with _ | s1
  · exact fun k hk => Or.inl hk
  · rcases h2 : a.target_portal_id with _ | s2
    · exact fun k hk => Or.inl hk
    · rcases ht : teamOf a with _ | t
      · exact fun k hk => Or.inl hk
      · dsimp only
        by_cases hg : (!s1.isEmpty && !s2.isEmpty) = true
        · rw [if_pos hg]
          split
          · intro k hk
            rw [setPortalTeam_links, setPortalTeam_links] at hk
            exact Or.inl hk
          · intro k hk
            rw [detect_links] at hk
            dsimp only at hk
            rcases addLink_sub _ _ _ hk with hk2 | hk2
            · have := cleanup_links_sub _ s1 s2 k hk2
              rw [setPortalTeam_links, setPortalTeam_links] at this
              exact Or.inl this
            · exact Or.inr ⟨s1, s2, t, rfl, rfl, rfl, hk2⟩
        · rw [if_neg hg]
          exact fun k hk => Or.inl hk

/-! ### `beaconSection` -/
theorem setPortalTeam_set (st : SimState) (id : List Char) (t : Option String)
    (p : PState) (hp : mfind st.portalStates id = some p) (hne : p.team ≠ t) :
    setPortalTeam st id t =
      ({ st with portalStates := mset st.portalStates id { p with team := t } },
        true) := by
  unfold setPortalTeam
  rw [hp]
  dsimp only
  rw [if_pos hne]

theorem beaconSection_none (st : SimState) (ch : Bool) (a : Action)
    (h1 : a.portal_id = none) : beaconSection st ch a = (st, ch) := by
  unfold beaconSection
  rw [h1]
  dsimp only
  rw [Bool.or_false, Bool.or_false]

theorem beaconSection_noState (st : SimState) (ch : Bool) (a : Action)
    (s1 : List Char) (h1 : a.portal_id = some s1)
    (hcs : mfind st.portalStates s1 = none) :
    beaconSection st ch a = (st, ch) := by
  unfold beaconSection
  rw [h1]
  dsimp only
  rw [hcs]
  dsimp only
  unfold setPortalTeam
  rw [hcs]
  dsimp only
  rw [Bool.or_false, Bool.or_false]

theorem beaconSection_guard (st : SimState) (ch : Bool) (a : Action)
    (s1 : List Char) (cs : PState) (h1 : a.portal_id = some s1)
    (hcs : mfind st.portalStates s1 = some cs)
    (hg : cs.team ≠ some "NEUTRAL" ∧ cs.team ≠ teamOf a) :
    beaconSection st ch a =
      ((setPortalTeam (removeLinksAttachedTo st s1).1 s1 (teamOf a)).1,
        ch || true ||
          (setPortalTeam (removeLinksAttachedTo st s1).1 s1 (teamOf a)).2) := by
  unfold beaconSection
  rw [h1]
  dsimp only
  rw [hcs]
  dsimp only
  rw [if_pos hg]

theorem beaconSection_noGuard (st : SimState) (ch : Bool) (a : Action)
    (s1 : List Char) (cs : PState) (h1 : a.portal_id = some s1)
    (hcs : mfind st.portalStates s1 = some cs)
    (hg : ¬ (cs.team ≠ some "NEUTRAL" ∧ cs.team ≠ teamOf a)) :
    beaconSection st ch a =
      ((setPortalTeam st s1 (teamOf a)).1,
        ch || (setPortalTeam st s1 (teamOf a)).2) := by
  unfold beaconSection
  rw [h1]
  dsimp only
  rw [hcs]
  dsimp only
  rw [if_neg hg]
  dsimp only
  rw [Bool.or_false]

theorem beacon_false (st : SimState) (ch : Bool) (a : Action)
    (h : (beaconSection st ch a).2 = false) :
    ch = false ∧ (beaconSection st ch a).1 = st := by
  rcases h1 : a.portal_id with _ | s1
  · rw [beaconSection_none st ch a h1] at h ⊢
    exact ⟨h, rfl⟩
  · rcases hcs : mfind st.portalStates s1 with _ | cs
    · rw [beaconSection_noState st ch a s1 h1 hcs] at h ⊢
      exact ⟨h, rfl⟩
    · by_cases hg : cs.team ≠ some "NEUTRAL" ∧ cs.team ≠ teamOf a
      · rw [beaconSection_guard st ch a s1 cs h1 hcs hg] at h
        exact absurd h (by simp)
      · rw [beaconSection_noGuard st ch a s1 cs h1 hcs hg] at h ⊢
        simp only [Bool.or_eq_false_iff] at h
        exact ⟨h.1, setPortalTeam_false _ _ _ h.2⟩

theorem beacon_true (st : SimState) (ch : Bool) (a : Action)
    (h : (beaconSection st ch a).2 = true) :
    ch = true ∨ ¬ visibleEq (beaconSection st ch a).1 st := by
  rcases h1 : a.portal_id with _ | s1
  · rw [beaconSection_none st ch a h1] at h
    exact Or.inl h
  · rcases hcs : mfind st.portalStates s1 with _ | cs
    · rw [beaconSection_noState st ch a s1 h1 hcs] at h
      exact Or.inl h
    · by_cases hg : cs.team ≠ some "NEUTRAL" ∧ cs.team ≠ teamOf a
      · right
        rw [beaconSection_guard st ch a s1 cs h1 hcs hg]
        dsimp only
        intro hvis
        have hcs2 : mfind (removeLinksAttachedTo st s1).1.portalStates s1 =
            some cs := by
          rw [removeLinks_portalStates]
          exact hcs
        have hset := setPortalTeam_set (removeLinksAttachedTo st s1).1 s1
          (teamOf a) cs hcs2 hg.2
        have hfin : mfind (setPortalTeam (removeLinksAttachedTo st s1).1 s1
            (teamOf a)).1.portalStates s1 = some { cs with team := teamOf a } := by
          rw [hset]
          exact mfind_mset_self _ _ _
        rw [hvis.1, hcs] at hfin
        exact hg.2 (congrArg PState.team (Option.some.inj hfin))
      · rw [beaconSection_noGuard st ch a s1 cs h1 hcs hg] at h ⊢
        dsimp only at h ⊢
        simp only [Bool.or_eq_true] at h
        rcases h with hch | hb
        · exact Or.inl hch
        · right
          by_cases hne : cs.team = teamOf a
          · rw [setPortalTeam_noop st s1 (teamOf a) cs hcs hne] at hb
            exact absurd hb (by simp)
          · have hset := setPortalTeam_set st s1 (teamOf a) cs hcs hne
            intro hvis
            have hfin : mfind (setPortalTeam st s1 (teamOf a)).1.portalStates s1 =
                some { cs with team := teamOf a } := by
              rw [hset]
              exact mfind_mset_self _ _ _
            rw [hvis.1, hcs] at hfin
            exact hne (congrArg PState.team (Option.some.inj hfin))

theorem beacon_team_preserved (st : SimState) (ch : Bool) (a : Action)
    (x : List Char) (q : PState) (hq : mfind st.portalStates x = some q)
    (hteam : q.team = teamOf a) :
    mfind (beaconSection st ch a).1.portalStates x = some q := by
  rcases h1 : a.portal_id with _ | s1
  · rw [beaconSection_none st ch a h1]
    exact hq
  · rcases hcs : mfind st.portalStates s1 with _ | cs
    · rw [beaconSection_noState st ch a s1 h1 hcs]
      exact hq
    · by_cases hg : cs.team ≠ some "NEUTRAL" ∧ cs.team ≠ teamOf a
      · rw [beaconSection_guard st ch a s1 cs h1 hcs hg]
        dsimp only
        have hq2 : mfind (removeLinksAttachedTo st s1).1.portalStates x =
            some q := by
          rw [removeLinks_portalStates]
          exact hq
        by_cases hsx : s1 = x
        · subst hsx
          rw [setPortalTeam_noop _ s1 (teamOf a) q hq2 hteam]
          exact hq2
        · rw [setPortalTeam_mfind_other _ s1 (teamOf a) x hsx]
          exact hq2
      · rw [beaconSection_noGuard st ch a s1 cs h1 hcs hg]
        dsimp only
        by_cases hsx : s1 = x
        · subst hsx
          rw [setPortalTeam_noop st s1 (teamOf a) q hq hteam]
          exact hq
        · rw [setPortalTeam_mfind_other st s1 (teamOf a) x hsx]
          exact hq

theorem beacon_geoView (st : SimState) (ch : Bool) (a : Action) (k : List Char) :
    geoView (beaconSection st ch a).1.portalStates k = geoView st.portalStates k := by
  rcases h1 : a.portal_id with _ | s1
  · rw [beaconSection_none st ch a h1]
  · rcases hcs : mfind st.portalStates s1 with _ | cs
    · rw [beaconSection_noState st ch a s1 h1 hcs]
    · by_cases hg : cs.team ≠ some "NEUTRAL" ∧ cs.team ≠ teamOf a
      · rw [beaconSection_guard st ch a s1 cs h1 hcs hg]
        dsimp only
        rw [setPortalTeam_geoView, removeLinks_portalStates]
      · rw [beaconSection_noGuard st ch a s1 cs h1 hcs hg]
        dsimp only
        rw [setPortalTeam_geoView]

theorem beacon_links_sub (st : SimState) (ch : Bool) (a : Action) :
    ∀ k ∈ (beaconSection st ch a).1.links, k ∈ st.links := by
  rcases h1 : a.portal_id with _ | s1
  · rw [beaconSection_none st ch a h1]
    exact fun k hk => hk
  · rcases hcs : mfind st.portalStates s1 with _ | cs
    · rw [beaconSection_noState st ch a s1 h1 hcs]
      exact fun k hk => hk
    · by_cases hg : cs.team ≠ some "NEUTRAL" ∧ cs.team ≠ teamOf a
      · rw [beaconSection_guard st ch a s1 cs h1 hcs hg]
        dsimp only
        intro k hk
        rw [setPortalTeam_links, removeLinks_links] at hk
        exact List.mem_of_mem_filter hk
      · rw [beaconSection_noGuard st ch a s1 cs h1 hcs hg]
        dsimp only
        intro k hk
        rw [setPortalTeam_links] at hk
        exact hk

theorem beacon_fields_sub (st : SimState) (ch : Bool) (a : Action) :
    ∀ f ∈ (beaconSection st ch a).1.fields, f ∈ st.fields := by
  rcases h1 : a.portal_id with _ | s1
  · rw [beaconSection_none st ch a h1]
    exact fun f hf => hf
  · rcases hcs : mfind st.portalStates s1 with _ | cs
    · rw [beaconSection_noState st ch a s1 h1 hcs]
      exact fun f hf => hf
    · by_cases hg : cs.team ≠ some "NEUTRAL" ∧ cs.team ≠ teamOf a
      · rw [beaconSection_guard st ch a s1 cs h1 hcs hg]
        dsimp only
        intro f hf
        rw [setPortalTeam_fields] at hf
        exact removeLinks_fields_sub st s1 f hf
      · rw [beaconSection_noGuard st ch a s1 cs h1 hcs hg]
        dsimp only
        intro f hf
        rw [setPortalTeam_fields] at hf
        exact hf

/-! ### Geometry transfer: states that agree on `geoView` -/

theorem geoView_isSome (m : List (List Char × PState)) (k : List Char) :
    (geoView m k).isSome = mhas m k := by
  unfold geoView mhas
  cases mfind m k <;> rfl

theorem mhas_of_geoView (m m' : List (List Char × PState)) (k : List Char)
    (h : geoView m k = geoView m' k) : mhas m k = mhas m' k := by
  rw [← geoView_isSome, ← geoView_isSome, h]

theorem geoView_some (m m' : List (List Char × PState)) (k : List Char) (p : PState)
    (heq : geoView m k = geoView m' k) (hp : mfind m k = some p) :
    ∃ p', mfind m' k = some p' ∧ p'.id = p.id ∧ geoEq p' p := by
  unfold geoView at heq
  rw [hp] at heq
  cases hm : mfind m' k with
  | none =>
    rw [hm] at heq
    exact absurd heq (by simp)
  | some q =>
    rw [hm] at heq
    simp only [Option.map_some', Option.some.injEq, Prod.mk.injEq] at heq
    exact ⟨q, rfl, heq.1.symm, heq.2.1.symm, heq.2.2.symm⟩

theorem cross_congr (a b c a' b' c' : PState) (hga : geoEq a a') (hgb : geoEq b b')
    (hgc : geoEq c c') :
    calculateCrossProduct a b c = calculateCrossProduct a' b' c' := by
  unfold calculateCrossProduct
  rw [hga.1, hga.2, hgb.1, hgb.2, hgc.1, hgc.2]

theorem ProperCross_congr (a b c d a' b' c' d' : PState) (hga : geoEq a a')
    (hgb : geoEq b b') (hgc : geoEq c c') (hgd : geoEq d d') :
    ProperCross a b c d ↔ ProperCross a' b' c' d' := by
  unfold ProperCross
  rw [cross_congr a b c a' b' c' hga hgb hgc, cross_congr a b d a' b' d' hga hgb hgd,
    cross_congr c d a c' d' a' hgc hgd hga, cross_congr c d b c' d' b' hgc hgd hgb]

theorem cross_swap (a b c : PState) :
    calculateCrossProduct b a c = -calculateCrossProduct a b c := by
  unfold calculateCrossProduct
  ring

theorem ProperCross_swap1 (a b c d : PState) (h : ProperCross a b c d) :
    ProperCross b a c d := by
  obtain ⟨h1, h2⟩ := h
  constructor
  · rw [cross_swap a b c, cross_swap a b d, neg_mul_neg]
    exact h1
  · rw [mul_comm]
    exact h2

theorem ProperCross_swap2 (a b c d : PState) (h : ProperCross a b c d) :
    ProperCross a b d c := by
  obtain ⟨h1, h2⟩ := h
  constructor
  · rw [mul_comm]
    exact h1
  · rw [cross_swap c d a, cross_swap c d b, neg_mul_neg]
    exact h2

theorem ProperCross_comm (a b c d : PState) (h : ProperCross a b c d) :
    ProperCross c d a b :=
  ⟨h.2, h.1⟩

theorem doLinksIntersect_of_ProperCross (a b c d : PState)
    (h1 : a.id ≠ c.id) (h2 : a.id ≠ d.id) (h3 : b.id ≠ c.id) (h4 : b.id ≠ d.id)
    (h : ProperCross a b c d) : doLinksIntersect a b c d = true := by
  unfold doLinksIntersect
  rw [if_neg (by push_neg; exact ⟨h1, h2, h3, h4⟩)]
  simp only [Bool.and_eq_true, decide_eq_true_eq]
  exact ⟨h.1, h.2⟩

theorem NoCrossing_transport (s t : SimState) (hN : NoCrossing t)
    (hgeo : ∀ k, geoView s.portalStates k = geoView t.portalStates k)
    (hsub : ∀ k ∈ s.links, k ∈ t.links) : NoCrossing s := by
  intro a b c d pa pb pc pd hpa hpb hpc hpd hab hac had hbc hbd hcd hk1 hk2 hne
  obtain ⟨pa', hpa', _, hga⟩ := geoView_some _ _ a pa (hgeo a) hpa
  obtain ⟨pb', hpb', _, hgb⟩ := geoView_some _ _ b pb (hgeo b) hpb
  obtain ⟨pc', hpc', _, hgc⟩ := geoView_some _ _ c pc (hgeo c) hpc
  obtain ⟨pd', hpd', _, hgd⟩ := geoView_some _ _ d pd (hgeo d) hpd
  intro hP
  exact hN a b c d pa' pb' pc' pd' hpa' hpb' hpc' hpd' hab hac had hbc hbd hcd
    (hsub _ hk1) (hsub _ hk2) hne
    ((ProperCross_congr pa' pb' pc' pd' pa pb pc pd hga hgb hgc hgd).mpr hP)

theorem IdsConsistent_transport (s t : SimState) (hI : IdsConsistent t)
    (hgeo : ∀ k, geoView s.portalStates k = geoView t.portalStates k) :
    IdsConsistent s := by
  intro k p hp
  obtain ⟨p', hp', hid, _⟩ := geoView_some _ _ k p (hgeo k) hp
  rw [← hid]
  exact hI k p' hp'

theorem CatalogDashFree_transport (s t : SimState) (hC : CatalogDashFree t)
    (hgeo : ∀ k, geoView s.portalStates k = geoView t.portalStates k) :
    CatalogDashFree s :=
  fun k hk => hC k (mhas_of_geoView _ _ k (hgeo k) ▸ hk)

/-! ### `resoDestroy` consequences -/

theorem reso_none (st : SimState) (a : Action) (hid : a.portal_id = none) :
    resoDestroy st a = (st, false) := by
  unfold resoDestroy
  rw [hid]

theorem reso_nohas (st : SimState) (a : Action) (s1 : List Char)
    (hid : a.portal_id = some s1) (hhas : mhas st.portalStates s1 = false) :
    resoDestroy st a = (st, false) := by
  unfold resoDestroy
  rw [hid]
  dsimp only
  rw [hhas, if_neg Bool.false_ne_true]

theorem reso_geoView (st : SimState) (a : Action) (k : List Char) :
    geoView (resoDestroy st a).1.portalStates k = geoView st.portalStates k := by
  rcases hid : a.portal_id with _ | s1
  · rw [reso_none st a hid]
  · cases hhas : mhas st.portalStates s1 with
    | false => rw [reso_nohas st a s1 hid hhas]
    | true =>
      rw [resoDestroy_spec st a s1 hid hhas]
      dsimp only
      by_cases h0 : (if (mfind st.portalResonators s1).getD 0 = 0 then 7
          else (mfind st.portalResonators s1).getD 0 - 1) = 0
      · have hle : (if (mfind st.portalResonators s1).getD 0 = 0 then 7
            else (mfind st.portalResonators s1).getD 0 - 1) ≤ 2 := by
          rw [h0]
          exact Nat.zero_le 2
        rw [if_pos hle, if_pos h0, setPortalTeam_geoView]
        dsimp only
        rw [removeLinks_portalStates]
      · by_cases hle : (if (mfind st.portalResonators s1).getD 0 = 0 then 7
            else (mfind st.portalResonators s1).getD 0 - 1) ≤ 2
        · rw [if_pos hle, if_neg h0]
          dsimp only
          rw [removeLinks_portalStates]
        · rw [if_neg hle, if_neg h0]

theorem reso_links_sub (st : SimState) (a : Action) :
    ∀ k ∈ (resoDestroy st a).1.links, k ∈ st.links := by
  rcases hid : a.portal_id with _ | s1
  · rw [reso_none st a hid]
    exact fun k hk => hk
  · cases hhas : mhas st.portalStates s1 with
    | false =>
      rw [reso_nohas st a s1 hid hhas]
      exact fun k hk => hk
    | true =>
      rw [resoDestroy_spec st a s1 hid hhas]
      dsimp only
      by_cases h0 : (if (mfind st.portalResonators s1).getD 0 = 0 then 7
          else (mfind st.portalResonators s1).getD 0 - 1) = 0
      · have hle : (if (mfind st.portalResonators s1).getD 0 = 0 then 7
            else (mfind st.portalResonators s1).getD 0 - 1) ≤ 2 := by
          rw [h0]
          exact Nat.zero_le 2
        rw [if_pos hle, if_pos h0]
        intro k hk
        rw [setPortalTeam_links] at hk
        dsimp only at hk
        rw [removeLinks_links] at hk
        exact List.mem_of_mem_filter hk
      · by_cases hle : (if (mfind st.portalResonators s1).getD 0 = 0 then 7
            else (mfind st.portalResonators s1).getD 0 - 1) ≤ 2
        · rw [if_pos hle, if_neg h0]
          intro k hk
          dsimp only at hk
          rw [removeLinks_links] at hk
          exact List.mem_of_mem_filter hk
        · rw [if_neg hle, if_neg h0]
          exact fun k hk => hk

theorem reso_fields_sub (st : SimState) (a : Action) :
    ∀ f ∈ (resoDestroy st a).1.fields, f ∈ st.fields := by
  rcases hid : a.portal_id with _ | s1
  · rw [reso_none st a hid]
    exact fun f hf => hf
  · cases hhas : mhas st.portalStates s1 with
    | false =>
      rw [reso_nohas st a s1 hid hhas]
      exact fun f hf => hf
    | true =>
      rw [resoDestroy_spec st a s1 hid hhas]
      dsimp only
      by_cases h0 : (if (mfind st.portalResonators s1).getD 0 = 0 then 7
          else (mfind st.portalResonators s1).getD 0 - 1) = 0
      · have hle : (if (mfind st.portalResonators s1).getD 0 = 0 then 7
            else (mfind st.portalResonators s1).getD 0 - 1) ≤ 2 := by
          rw [h0]
          exact Nat.zero_le 2
        rw [if_pos hle, if_pos h0]
        intro f hf
        rw [setPortalTeam_fields] at hf
        dsimp only at hf
        have hsub := removeLinks_fields_sub _ s1 f hf
        exact hsub
      · by_cases hle : (if (mfind st.portalResonators s1).getD 0 = 0 then 7
            else (mfind st.portalResonators s1).getD 0 - 1) ≤ 2
        · rw [if_pos hle, if_neg h0]
          intro f hf
          dsimp only at hf
          have hsub := removeLinks_fields_sub _ s1 f hf
          exact hsub
        · rw [if_neg hle, if_neg h0]
          exact fun f hf => hf

theorem reso_false (st : SimState) (a : Action)
    (h : (resoDestroy st a).2 = false) : visibleEq (resoDestroy st a).1 st := by
  rcases hid : a.portal_id with _ | s1
  · rw [reso_none st a hid]
    exact ⟨rfl, rfl, rfl⟩
  · cases hhas : mhas st.portalStates s1 with
    | false =>
      rw [reso_nohas st a s1 hid hhas]
      exact ⟨rfl, rfl, rfl⟩
    | true =>
      rw [resoDestroy_spec st a s1 hid hhas] at h ⊢
      dsimp only at h ⊢
      by_cases h0 : (if (mfind st.portalResonators s1).getD 0 = 0 then 7
          else (mfind st.portalResonators s1).getD 0 - 1) = 0
      · have hle : (if (mfind st.portalResonators s1).getD 0 = 0 then 7
            else (mfind st.portalResonators s1).getD 0 - 1) ≤ 2 := by
          rw [h0]
          exact Nat.zero_le 2
        rw [if_pos hle, if_pos h0] at h ⊢
        simp only [Bool.or_eq_false_iff] at h
        obtain ⟨h2, h3⟩ := h
        rw [setPortalTeam_false _ _ _ h3]
        rw [removeLinks_false _ _ h2]
        exact ⟨rfl, rfl, rfl⟩
      · by_cases hle : (if (mfind st.portalResonators s1).getD 0 = 0 then 7
            else (mfind st.portalResonators s1).getD 0 - 1) ≤ 2
        · rw [if_pos hle, if_neg h0] at h ⊢
          dsimp only at h ⊢
          simp only [Bool.or_eq_false_iff] at h
          obtain ⟨h2, _⟩ := h
          rw [removeLinks_false _ _ h2]
          exact ⟨rfl, rfl, rfl⟩
        · rw [if_neg hle, if_neg h0]
          exact ⟨rfl, rfl, rfl⟩

theorem reso_true (st : SimState) (a : Action)
    (h : (resoDestroy st a).2 = true) : ¬ visibleEq (resoDestroy st a).1 st := by
  rcases hid : a.portal_id with _ | s1
  · rw [reso_none st a hid] at h
    exact absurd h (by simp)
  · cases hhas : mhas st.portalStates s1 with
    | false =>
      rw [reso_nohas st a s1 hid hhas] at h
      exact absurd h (by simp)
    | true =>
      rw [resoDestroy_spec st a s1 hid hhas] at h ⊢
      dsimp only at h ⊢
      by_cases h0 : (if (mfind st.portalResonators s1).getD 0 = 0 then 7
          else (mfind st.portalResonators s1).getD 0 - 1) = 0
      · have hle : (if (mfind st.portalResonators s1).getD 0 = 0 then 7
            else (mfind st.portalResonators s1).getD 0 - 1) ≤ 2 := by
          rw [h0]
          exact Nat.zero_le 2
        rw [if_pos hle, if_pos h0] at h ⊢
        simp only [Bool.or_eq_true] at h
        intro hvis
        rcases h with h2 | h3
        · rcases removeLinks_true _ _ h2 with hs | hs
          · have hl := hvis.2.1
            rw [setPortalTeam_links] at hl
            dsimp only at hl
            rw [hl] at hs
            dsimp only at hs
            exact absurd hs (lt_irrefl _)
          · have hf := hvis.2.2
            rw [setPortalTeam_fields] at hf
            dsimp only at hf
            rw [hf] at hs
            dsimp only at hs
            exact absurd hs (lt_irrefl _)
        · obtain ⟨p, hp, hpne, hps⟩ := setPortalTeam_true _ s1 (some "NEUTRAL") h3
          have hp0 : mfind st.portalStates s1 = some p := by
            dsimp only at hp
            rw [removeLinks_portalStates] at hp
            exact hp
          have h1 := hvis.1
          rw [hps] at h1
          have h2 : mfind st.portalStates s1 =
              some { p with team := some "NEUTRAL" } := by
            rw [← h1]
            exact mfind_mset_self _ _ _
          rw [hp0] at h2
          exact hpne (congrArg PState.team (Option.some.inj h2))
      · by_cases hle : (if (mfind st.portalResonators s1).getD 0 = 0 then 7
            else (mfind st.portalResonators s1).getD 0 - 1) ≤ 2
        · rw [if_pos hle, if_neg h0] at h ⊢
          dsimp only at h ⊢
          simp only [Bool.or_eq_true] at h
          rcases h with h2 | h3
          · intro hvis
            rcases removeLinks_true _ _ h2 with hs | hs
            · have hl := hvis.2.1
              rw [hl] at hs
              dsimp only at hs
              exact absurd hs (lt_irrefl _)
            · have hf := hvis.2.2
              rw [hf] at hs
              dsimp only at hs
              exact absurd hs (lt_irrefl _)
          · exact absurd h3 (by simp)
        · rw [if_neg hle, if_neg h0] at h
          dsimp only at h
          exact absurd h (by simp)

/-! ### Team provenance: which records a section can produce -/

theorem deploy_mfind_cases (st : SimState) (a : Action) (k : List Char) (p' : PState)
    (h : mfind (deploySection st a).1.portalStates k = some p') :
    mfind st.portalStates k = some p' ∨
      ∃ t, teamOf a = some t ∧ p'.team = some t := by
  unfold deploySection at h
  rcases ht : teamOf a with _ | t
  · rw [ht] at h
    exact Or.inl h
  · rcases h1 : a.portal_id with _ | s1
    · rw [ht, h1] at h
      exact Or.inl h
    · rw [ht, h1] at h
      dsimp only at h
      by_cases hs : (!s1.isEmpty) = true
      · rw [if_pos hs] at h
        rcases hcs : mfind st.portalStates s1 with _ | cs
        · rw [hcs] at h
          exact Or.inl h
        · rw [hcs] at h
          dsimp only at h
          by_cases hv : (jsIncludes deployV a.action ||
              jsIncludes capturedV a.action) = true
          · rw [if_pos hv] at h
            by_cases hflip : cs.team ≠ some "NEUTRAL" ∧ cs.team ≠ some t
            · rw [if_pos hflip] at h
              dsimp only at h
              rw [removeLinks_portalStates] at h
              rcases setPortalTeam_mfind_cases st s1 (some t) k p' h with hc | hc
              · exact Or.inl hc
              · exact Or.inr ⟨t, rfl, hc.2.1⟩
            · rw [if_neg hflip] at h
              by_cases hneu : cs.team = some "NEUTRAL"
              · rw [if_pos hneu] at h
                dsimp only at h
                rcases setPortalTeam_mfind_cases st s1 (some t) k p' h with hc | hc
                · exact Or.inl hc
                · exact Or.inr ⟨t, rfl, hc.2.1⟩
              · rw [if_neg hneu] at h
                dsimp only at h
                split at h
                · exact Or.inl h
                · exact Or.inl h
          · rw [if_neg hv] at h
            exact Or.inl h
      · rw [if_neg hs] at h
        exact Or.inl h

theorem link_mfind_cases (st : SimState) (ch : Bool) (a : Action) (k : List Char)
    (p' : PState) (h : mfind (linkSection st ch a).1.portalStates k = some p') :
    mfind st.portalStates k = some p' ∨
      ∃ t, teamOf a = some t ∧ p'.team = some t := by
  unfold linkSection at h
  rcases h1 : a.portal_id with _ | s1
  · rw [h1] at h
    exact Or.inl h
  · rcases h2 : a.target_portal_id with _ | s2
    · rw [h1, h2] at h
      exact Or.inl h
    · rcases ht : teamOf a with _ | t
      · rw [h1, h2, ht] at h
        exact Or.inl h
      · rw [h1, h2, ht] at h
        dsimp only at h
        by_cases hg : (!s1.isEmpty && !s2.isEmpty) = true
        · rw [if_pos hg] at h
          have hB : mfind (setPortalTeam (setPortalTeam st s1 (some t)).1 s2
              (some t)).1.portalStates k = some p' := by
            split at h
            · exact h
            · rw [detect_portalStates] at h
              dsimp only at h
              rw [cleanup_portalStates] at h
              exact h
          rcases setPortalTeam_mfind_cases _ s2 (some t) k p' hB with hc | hc
          · rcases setPortalTeam_mfind_cases st s1 (some t) k p' hc with hd | hd
            · exact Or.inl hd
            · exact Or.inr ⟨t, rfl, hd.2.1⟩
          · exact Or.inr ⟨t, rfl, hc.2.1⟩
        · rw [if_neg hg] at h
          exact Or.inl h

theorem beacon_mfind_cases (st : SimState) (ch : Bool) (a : Action) (k : List Char)
    (p' : PState) (h : mfind (beaconSection st ch a).1.portalStates k = some p') :
    mfind st.portalStates k = some p' ∨ p'.team = teamOf a := by
  rcases h1 : a.portal_id with _ | s1
  · rw [beaconSection_none st ch a h1] at h
    exact Or.inl h
  · rcases hcs : mfind st.portalStates s1 with _ | cs
    · rw [beaconSection_noState st ch a s1 h1 hcs] at h
      exact Or.inl h
    · by_cases hg : cs.team ≠ some "NEUTRAL" ∧ cs.team ≠ teamOf a
      · rw [beaconSection_guard st ch a s1 cs h1 hcs hg] at h
        dsimp only at h
        rcases setPortalTeam_mfind_cases _ s1 (teamOf a) k p' h with hc | hc
        · rw [removeLinks_portalStates] at hc
          exact Or.inl hc
        · exact Or.inr hc.2.1
      · rw [beaconSection_noGuard st ch a s1 cs h1 hcs hg] at h
        dsimp only at h
        rcases setPortalTeam_mfind_cases st s1 (teamOf a) k p' h with hc | hc
        · exact Or.inl hc
        · exact Or.inr hc.2.1

/-! ### `processAction` composition -/

theorem processAction_geoView (st : SimState) (a : Action) (k : List Char) :
    geoView (processAction st a).1.portalStates k = geoView st.portalStates k := by
  by_cases hld : a.type = "link" ∧ a.action = destroyV
  · rw [processAction_eq_linkDestroy st a hld.1 hld.2, eLD_portalStates]
  · by_cases hrd : a.action = destroyV ∧ a.type = "reso"
    · rw [processAction_eq_reso st a hrd.1 hrd.2]
      exact reso_geoView st a k
    · by_cases hl : a.type = "link"
      · rw [processAction_eq_link st a hl (fun hd => hld ⟨hl, hd⟩)]
        rw [link_geoView, deploy_geoView]
      · cases hw : jsStartsWith wonV a.action with
        | true =>
          rw [processAction_eq_beacon st a hl hrd hw]
          rw [beacon_geoView, deploy_geoView]
        | false =>
          rw [processAction_eq_deploy st a hl hrd hw]
          exact deploy_geoView st a k

theorem processAction_mhas (st : SimState) (a : Action) (k : List Char) :
    mhas (processAction st a).1.portalStates k = mhas st.portalStates k := by
  rw [← geoView_isSome, ← geoView_isSome, processAction_geoView]

theorem processAction_links_cases (st : SimState) (a : Action) :
    ∀ k ∈ (processAction st a).1.links, k ∈ st.links ∨
      (a.type = "link" ∧ ∃ s1 s2 t, a.portal_id = some s1 ∧
        a.target_portal_id = some s2 ∧ teamOf a = some t ∧
        k = getLinkKey s1 s2) := by
  by_cases hld : a.type = "link" ∧ a.action = destroyV
  · rw [processAction_eq_linkDestroy st a hld.1 hld.2]
    exact fun k hk => Or.inl (eLD_links_sub st a k hk)
  · by_cases hrd : a.action = destroyV ∧ a.type = "reso"
    · rw [processAction_eq_reso st a hrd.1 hrd.2]
      exact fun k hk => Or.inl (reso_links_sub st a k hk)
    · by_cases hl : a.type = "link"
      · rw [processAction_eq_link st a hl (fun hd => hld ⟨hl, hd⟩)]
        intro k hk
        rcases link_links_mem _ _ a k hk with hk2 | hk2
        · exact Or.inl (deploy_links_sub st a k hk2)
        · exact Or.inr ⟨hl, hk2⟩
      · cases hw : jsStartsWith wonV a.action with
        | true =>
          rw [processAction_eq_beacon st a hl hrd hw]
          exact fun k hk =>
            Or.inl (deploy_links_sub st a k (beacon_links_sub _ _ a k hk))
        | false =>
          rw [processAction_eq_deploy st a hl hrd hw]
          exact fun k hk => Or.inl (deploy_links_sub st a k hk)

theorem processAction_flag_false (st : SimState) (a : Action)
    (h : (processAction st a).2 = false) :
    visibleEq (processAction st a).1 st := by
  by_cases hld : a.type = "link" ∧ a.action = destroyV
  · rw [processAction_eq_linkDestroy st a hld.1 hld.2] at h ⊢
    rw [eLD_false st a h]
    exact ⟨rfl, rfl, rfl⟩
  · by_cases hrd : a.action = destroyV ∧ a.type = "reso"
    · rw [processAction_eq_reso st a hrd.1 hrd.2] at h ⊢
      exact reso_false st a h
    · by_cases hl : a.type = "link"
      · rw [processAction_eq_link st a hl (fun hd => hld ⟨hl, hd⟩)] at h ⊢
        obtain ⟨hch, heq⟩ := link_false _ _ a h
        rw [heq]
        obtain ⟨hps, hlk, hfd⟩ := deploy_false st a hch
        exact ⟨hps, hlk, hfd⟩
      · cases hw : jsStartsWith wonV a.action with
        | true =>
          rw [processAction_eq_beacon st a hl hrd hw] at h ⊢
          obtain ⟨hch, heq⟩ := beacon_false _ _ a h
          rw [heq]
          obtain ⟨hps, hlk, hfd⟩ := deploy_false st a hch
          exact ⟨hps, hlk, hfd⟩
        | false =>
          rw [processAction_eq_deploy st a hl hrd hw] at h ⊢
          obtain ⟨hps, hlk, hfd⟩ := deploy_false st a h
          exact ⟨hps, hlk, hfd⟩

theorem processAction_flag_true (st : SimState) (a : Action)
    (h : (processAction st a).2 = true) :
    ¬ visibleEq (processAction st a).1 st := by
  by_cases hld : a.type = "link" ∧ a.action = destroyV
  · rw [processAction_eq_linkDestroy st a hld.1 hld.2] at h ⊢
    have hlt := eLD_true st a h
    intro hvis
    rw [hvis.2.1] at hlt
    exact absurd hlt (lt_irrefl _)
  · by_cases hrd : a.action = destroyV ∧ a.type = "reso"
    · rw [processAction_eq_reso st a hrd.1 hrd.2] at h ⊢
      exact reso_true st a h
    · by_cases hl : a.type = "link"
      · rw [processAction_eq_link st a hl (fun hd => hld ⟨hl, hd⟩)] at h ⊢
        rcases link_true _ _ a h with hch | hnv
        · obtain ⟨s1, t, cs, ht, h1, hcs, hne, hset⟩ := deploy_true st a hch
          intro hvis
          have hpres := link_team_preserved (deploySection st a).1
            (deploySection st a).2 a s1 { cs with team := some t } t ht hset rfl
          rw [hvis.1, hcs] at hpres
          exact hne (congrArg PState.team (Option.some.inj hpres))
        · rcases Bool.eq_false_or_eq_true (deploySection st a).2 with hch2 | hch2
          · obtain ⟨s1, t, cs, ht, h1, hcs, hne, hset⟩ := deploy_true st a hch2
            intro hvis
            have hpres := link_team_preserved (deploySection st a).1
              (deploySection st a).2 a s1 { cs with team := some t } t ht hset rfl
            rw [hvis.1, hcs] at hpres
            exact hne (congrArg PState.team (Option.some.inj hpres))
          · obtain ⟨hps, hlk, hfd⟩ := deploy_false st a hch2
            intro hvis
            exact hnv ⟨hvis.1.trans hps.symm, hvis.2.1.trans hlk.symm,
              hvis.2.2.trans hfd.symm⟩
      · cases hw : jsStartsWith wonV a.action with
        | true =>
          rw [processAction_eq_beacon st a hl hrd hw] at h ⊢
          rcases beacon_true _ _ a h with hch | hnv
          · obtain ⟨s1, t, cs, ht, h1, hcs, hne, hset⟩ := deploy_true st a hch
            intro hvis
            have hpres := beacon_team_preserved (deploySection st a).1
              (deploySection st a).2 a s1 { cs with team := some t } hset ht.symm
            rw [hvis.1, hcs] at hpres
            exact hne (congrArg PState.team (Option.some.inj hpres))
          · rcases Bool.eq_false_or_eq_true (deploySection st a).2 with hch2 | hch2
            · obtain ⟨s1, t, cs, ht, h1, hcs, hne, hset⟩ := deploy_true st a hch2
              intro hvis
              have hpres := beacon_team_preserved (deploySection st a).1
                (deploySection st a).2 a s1 { cs with team := some t } hset ht.symm
              rw [hvis.1, hcs] at hpres
              exact hne (congrArg PState.team (Option.some.inj hpres))
            · obtain ⟨hps, hlk, hfd⟩ := deploy_false st a hch2
              intro hvis
              exact hnv ⟨hvis.1.trans hps.symm, hvis.2.1.trans hlk.symm,
                hvis.2.2.trans hfd.symm⟩
        | false =>
          rw [processAction_eq_deploy st a hl hrd hw] at h ⊢
          obtain ⟨s1, t, cs, ht, h1, hcs, hne, hset⟩ := deploy_true st a h
          intro hvis
          rw [hvis.1, hcs] at hset
          exact hne (congrArg PState.team (Option.some.inj hset))

/-! ### Planarity: the sweep kills crossing links (dash-free catalogs) -/

theorem NoCrossing_init (c : List PortalIn) : NoCrossing (initSim c) := by
  intro x y z w px py pz pw _ _ _ _ _ _ _ _ _ _ hk1 _ _
  exact absurd hk1 (List.not_mem_nil _)

theorem initFold_ids (c : List PortalIn) (m : List (List Char × PState))
    (hm : ∀ k p, mfind m k = some p → p.id = k) :
    ∀ k p, mfind (c.foldl (fun acc q =>
        mset acc q.id ⟨q.id, q.lat, q.lng, some "NEUTRAL"⟩) m) k = some p →
      p.id = k := by
  induction c generalizing m with
  | nil => exact hm
  | cons q rest ih =>
    rw [List.foldl_cons]
    apply ih
    intro k p hp
    rw [mfind_mset] at hp
    by_cases hqk : q.id = k
    · rw [if_pos hqk] at hp
      have hrec := Option.some.inj hp
      rw [← hrec]
      exact hqk
    · rw [if_neg hqk] at hp
      exact hm k p hp

theorem IdsConsistent_init (c : List PortalIn) : IdsConsistent (initSim c) := by
  intro k p hp
  exact initFold_ids c [] (fun k p hp => Option.noConfusion hp) k p hp

theorem initFold_keys (c : List PortalIn) (m : List (List Char × PState))
    (hm : ∀ k, mhas m k = true → dashFree k)
    (hc : ∀ p ∈ c, dashFree p.id) :
    ∀ k, mhas (c.foldl (fun acc q =>
        mset acc q.id ⟨q.id, q.lat, q.lng, some "NEUTRAL"⟩) m) k = true →
      dashFree k := by
  induction c generalizing m with
  | nil => exact hm
  | cons q rest ih =>
    rw [List.foldl_cons]
    apply ih
    · intro k hk
      rw [mhas_mset] at hk
      simp only [Bool.or_eq_true, decide_eq_true_eq] at hk
      rcases hk with hk | hk
      · exact hk ▸ hc q (List.mem_cons_self q rest)
      · exact hm k hk
    · intro p hp
      exact hc p (List.mem_cons_of_mem q hp)

theorem CatalogDashFree_init (c : List PortalIn)
    (hdf : ∀ p ∈ c, dashFree p.id) : CatalogDashFree (initSim c) := by
  intro k hk
  exact initFold_keys c [] (fun k hk => Bool.noConfusion hk) hdf k hk

/-- Against a dash-free, id-consistent catalog, a link that survives the
planarity sweep for a new segment with the same canonical key as
`{a, b}` cannot properly cross it. -/
theorem sweep_kills (stB : SimState) (s1 s2 a b c d : List Char)
    (pa pb pc pd : PState)
    (hI : IdsConsistent stB) (hC : CatalogDashFree stB)
    (hpa : mfind stB.portalStates a = some pa)
    (hpb : mfind stB.portalStates b = some pb)
    (hpc : mfind stB.portalStates c = some pc)
    (hpd : mfind stB.portalStates d = some pd)
    (hab : a ≠ b) (hcd : c ≠ d) (hac : a ≠ c) (had : a ≠ d)
    (hbc : b ≠ c) (hbd : b ≠ d)
    (hkeyK : getLinkKey s1 s2 = getLinkKey a b)
    (hkcd : getLinkKey c d ∈ (cleanupCrossedLinks stB s1 s2).1.links)
    (hP : ProperCross pa pb pc pd) : False := by
  have hdfa : dashFree a := hC a (by unfold mhas; rw [hpa]; rfl)
  have hdfb : dashFree b := hC b (by unfold mhas; rw [hpb]; rfl)
  have hdfc : dashFree c := hC c (by unfold mhas; rw [hpc]; rfl)
  have hdfd : dashFree d := hC d (by unfold mhas; rw [hpd]; rfl)
  have hida := hI a pa hpa
  have hidb := hI b pb hpb
  have hidc := hI c pc hpc
  have hidd := hI d pd hpd
  have iac : pa.id ≠ pc.id := by rw [hida, hidc]; exact hac
  have iad : pa.id ≠ pd.id := by rw [hida, hidd]; exact had
  have ibc : pb.id ≠ pc.id := by rw [hidb, hidc]; exact hbc
  have ibd : pb.id ≠ pd.id := by rw [hidb, hidd]; exact hbd
  rcases getLinkKey_decomp s1 s2 a b hdfa hdfb hkeyK with ⟨h1, h2⟩ | ⟨h1, h2⟩
  · have hsw := (cleanup_mem stB s1 s2 pa pb (by rw [h1]; exact hpa)
      (by rw [h2]; exact hpb) (getLinkKey c d) hkcd).2
    unfold sweepDeletes at hsw
    rcases splitDash_getLinkKey c d hdfc hdfd with hsp | hsp <;>
      rw [hsp] at hsw <;> dsimp only at hsw
    · rw [hpc, hpd] at hsw
      dsimp only at hsw
      have htrue := doLinksIntersect_of_ProperCross pa pb pc pd iac iad ibc ibd hP
      rw [htrue] at hsw
      exact absurd hsw (by decide)
    · rw [hpd, hpc] at hsw
      dsimp only at hsw
      have htrue := doLinksIntersect_of_ProperCross pa pb pd pc iad iac ibd ibc
        (ProperCross_swap2 pa pb pc pd hP)
      rw [htrue] at hsw
      exact absurd hsw (by decide)
  · have hsw := (cleanup_mem stB s1 s2 pb pa (by rw [h1]; exact hpb)
      (by rw [h2]; exact hpa) (getLinkKey c d) hkcd).2
    unfold sweepDeletes at hsw
    have hP1 := ProperCross_swap1 pa pb pc pd hP
    rcases splitDash_getLinkKey c d hdfc hdfd with hsp | hsp <;>
      rw [hsp] at hsw <;> dsimp only at hsw
    · rw [hpc, hpd] at hsw
      dsimp only at hsw
      have htrue := doLinksIntersect_of_ProperCross pb pa pc pd ibc ibd iac iad hP1
      rw [htrue] at hsw
      exact absurd hsw (by decide)
    · rw [hpd, hpc] at hsw
      dsimp only at hsw
      have htrue := doLinksIntersect_of_ProperCross pb pa pd pc ibd ibc iad iac
        (ProperCross_swap2 pb pa pc pd hP1)
      rw [htrue] at hsw
      exact absurd hsw (by decide)

theorem NoCrossing_linkSection (B : SimState) (ch : Bool) (a : Action)
    (hI : IdsConsistent B) (hC : CatalogDashFree B) (hN : NoCrossing B) :
    NoCrossing (linkSection B ch a).1 := by
  unfold linkSection
  rcases a.portal_id with _ | s1
  · exact hN
  · rcases a.target_portal_id with _ | s2
    · exact hN
    · rcases teamOf a with _ | t
      · exact hN
      · dsimp only
        by_cases hg : (!s1.isEmpty && !s2.isEmpty) = true
        · rw [if_pos hg]
          have hgeoB : ∀ k, geoView (setPortalTeam (setPortalTeam B s1 (some t)).1
              s2 (some t)).1.portalStates k = geoView B.portalStates k := by
            intro k
            rw [setPortalTeam_geoView, setPortalTeam_geoView]
          have hlinksB : (setPortalTeam (setPortalTeam B s1 (some t)).1 s2
              (some t)).1.links = B.links := by
            rw [setPortalTeam_links, setPortalTeam_links]
          by_cases hmem : getLinkKey s1 s2 ∈ (setPortalTeam (setPortalTeam B s1
              (some t)).1 s2 (some t)).1.links
          · rw [if_pos hmem]
            exact NoCrossing_transport _ B hN hgeoB
              (fun k hk => by rw [hlinksB] at hk; exact hk)
          · rw [if_neg hmem]
            have hIB := IdsConsistent_transport _ B hI hgeoB
            have hCB := CatalogDashFree_transport _ B hC hgeoB
            have hNB := NoCrossing_transport _ B hN hgeoB
              (fun k hk => by rw [hlinksB] at hk; exact hk)
            intro x y z w px py pz pw hpx hpy hpz hpw hxy hxz hxw hyz hyw hzw
              hk1 hk2 hne hP
            rw [detect_portalStates] at hpx hpy hpz hpw
            dsimp only at hpx hpy hpz hpw
            rw [cleanup_portalStates] at hpx hpy hpz hpw
            rw [detect_links] at hk1 hk2
            dsimp only at hk1 hk2
            rcases addLink_sub _ _ _ hk1 with hk1' | hk1' <;>
              rcases addLink_sub _ _ _ hk2 with hk2' | hk2'
            · exact hNB x y z w px py pz pw hpx hpy hpz hpw hxy hxz hxw hyz hyw
                hzw (cleanup_links_sub _ s1 s2 _ hk1')
                (cleanup_links_sub _ s1 s2 _ hk2') hne hP
            · exact sweep_kills _ s1 s2 z w x y pz pw px py hIB hCB hpz hpw hpx
                hpy hzw hxy (fun h => hxz h.symm) (fun h => hyz h.symm)
                (fun h => hxw h.symm) (fun h => hyw h.symm) hk2'.symm hk1'
                (ProperCross_comm px py pz pw hP)
            · exact sweep_kills _ s1 s2 x y z w px py pz pw hIB hCB hpx hpy hpz
                hpw hxy hzw hxz hxw hyz hyw hk1'.symm hk2' hP
            · exact hne (hk1'.trans hk2'.symm)
        · rw [if_neg hg]
          exact hN

theorem IdsConsistent_step (st : SimState) (a : Action) (hI : IdsConsistent st) :
    IdsConsistent (processAction st a).1 :=
  IdsConsistent_transport _ st hI (processAction_geoView st a)

theorem CatalogDashFree_step (st : SimState) (a : Action)
    (hC : CatalogDashFree st) : CatalogDashFree (processAction st a).1 :=
  CatalogDashFree_transport _ st hC (processAction_geoView st a)

theorem NoCrossing_step (st : SimState) (a : Action) (hI : IdsConsistent st)
    (hC : CatalogDashFree st) (hN : NoCrossing st) :
    NoCrossing (processAction st a).1 := by
  by_cases hld : a.type = "link" ∧ a.action = destroyV
  · rw [processAction_eq_linkDestroy st a hld.1 hld.2]
    exact NoCrossing_transport _ st hN (fun k => by rw [eLD_portalStates])
      (eLD_links_sub st a)
  · by_cases hrd : a.action = destroyV ∧ a.type = "reso"
    · rw [processAction_eq_reso st a hrd.1 hrd.2]
      exact NoCrossing_transport _ st hN (reso_geoView st a) (reso_links_sub st a)
    · by_cases hl : a.type = "link"
      · rw [processAction_eq_link st a hl (fun hd => hld ⟨hl, hd⟩)]
        apply NoCrossing_linkSection
        · exact IdsConsistent_transport _ st hI (deploy_geoView st a)
        · exact CatalogDashFree_transport _ st hC (deploy_geoView st a)
        · exact NoCrossing_transport _ st hN (deploy_geoView st a)
            (deploy_links_sub st a)
      · cases hw : jsStartsWith wonV a.action with
        | true =>
          rw [processAction_eq_beacon st a hl hrd hw]
          apply NoCrossing_transport _ st hN
          · intro k
            rw [beacon_geoView, deploy_geoView]
          · intro k hk
            exact deploy_links_sub st a k (beacon_links_sub _ _ a k hk)
        | false =>
          rw [processAction_eq_deploy st a hl hrd hw]
          exact NoCrossing_transport _ st hN (deploy_geoView st a)
            (deploy_links_sub st a)

/-! ## Counterexamples and directly evaluated theorems -/

/-- C1 (counterexample).  The claim asserts that a `link_*` action whose
`portal_id` or `target_portal_id` is not in the catalog never adds a link.
On a one-portal catalog `{p}`, the action `link_ENL(X, Y)` with both ids
unknown adds the link `X-Y` anyway: `processAction` only checks the ids for
truthiness before inserting the key. -/
theorem C1_counterexample :
    getLinkKey ['X'] ['Y'] ∈
      (replay (initSim [⟨['p'], 0, 0⟩]) [mkLink "e1" ['X'] ['Y']]).links ∧
    mhas (replay (initSim [⟨['p'], 0, 0⟩]) [mkLink "e1" ['X'] ['Y']]).portalStates ['X']
      = false ∧
    mhas (replay (initSim [⟨['p'], 0, 0⟩]) [mkLink "e1" ['X'] ['Y']]).portalStates ['Y']
      = false := by
  decide

/-- C3 (counterexample).  The claim asserts the new count is
`max (c - 1) 0`, so a portal at count 0 stays at 0.  On the fresh catalog
portal `A` (count 0), a resonator destruction yields count 7: the JS
`portalResonators.get(p1Id) || 8` treats the stored 0 as falsy and defaults
to 8 before decrementing. -/
theorem C3_counterexample :
    mfind (initSim [⟨['A'], 0, 0⟩]).portalResonators ['A'] = some 0 ∧
    mfind (replay (initSim [⟨['A'], 0, 0⟩]) [mkResoDestroy "e1" ['A']]).portalResonators
      ['A'] = some 7 ∧
    (7 : Nat) ≠ max (0 - 1) 0 := by
  decide

/-- C4 (counterexample).  The claim asserts that after every
`processAction` call a portal with resonator count ≤ 2 has no incident
links, in particular after a `link_*` action.  A `link_ENL(A, B)` action on
two fresh catalog portals (both at count 0) inserts the link without
touching or checking either resonator count, so `A` ends with count 0 ≤ 2
and an incident link. -/
theorem C4_counterexample :
    mfind (replay (initSim [⟨['A'], 0, 0⟩, ⟨['B'], 1, 1⟩])
        [mkLink "e1" ['A'] ['B']]).portalResonators ['A'] = some 0 ∧
    getLinkKey ['A'] ['B'] ∈
      (replay (initSim [⟨['A'], 0, 0⟩, ⟨['B'], 1, 1⟩]) [mkLink "e1" ['A'] ['B']]).links := by
  decide

/-- C5 (counterexample).  The claim asserts the stored link set is pairwise
non-crossing for links whose four endpoints are distinct catalog portals.
With the dash-bearing catalog id `b-c`, the stored key of link
`{a, b-c}` is the string `a-b-c`; the planarity sweep splits it on `-` and
tests the segment `a`–`b` (two *different* catalog portals) instead of
`a`–`b-c`, so inserting `x`–`y` leaves both links stored although their
segments properly cross and all four endpoint identifiers are distinct
catalog portals. -/
theorem C5_counterexample :
    getLinkKey ['a'] ['b', '-', 'c'] ∈ fin5.links ∧
    getLinkKey ['x'] ['y'] ∈ fin5.links ∧
    mfind fin5.portalStates ['a'] = some ⟨['a'], 0, 0, some "ENL"⟩ ∧
    mfind fin5.portalStates ['b', '-', 'c'] = some ⟨['b', '-', 'c'], 0, 2, some "ENL"⟩ ∧
    mfind fin5.portalStates ['x'] = some ⟨['x'], -1, 1, some "ENL"⟩ ∧
    mfind fin5.portalStates ['y'] = some ⟨['y'], 1, 1, some "ENL"⟩ ∧
    (['a'] : List Char) ≠ ['b', '-', 'c'] ∧ (['a'] : List Char) ≠ ['x'] ∧
    (['a'] : List Char) ≠ ['y'] ∧ (['b', '-', 'c'] : List Char) ≠ ['x'] ∧
    (['b', '-', 'c'] : List Char) ≠ ['y'] ∧ (['x'] : List Char) ≠ ['y'] ∧
    getLinkKey ['a'] ['b', '-', 'c'] ≠ getLinkKey ['x'] ['y'] ∧
    ProperCross ⟨['a'], 0, 0, some "ENL"⟩ ⟨['b', '-', 'c'], 0, 2, some "ENL"⟩
      ⟨['x'], -1, 1, some "ENL"⟩ ⟨['y'], 1, 1, some "ENL"⟩ := by
  decide

/-- C6 (counterexample).  The claim asserts that area ties among same-side
field candidates are broken by neighbour-id lexicographic order.  In the
`fin6` scenario the two left-side candidates `z` and `b` have equal area
(`|cross| = 4`, both portals at the same point); the code emits the field
through `z` (first encountered in link-set insertion order) although `b` is
lexicographically smaller, which is also what the spec-side tie-breaker
`specTieBreakWinner` selects. -/
theorem C6_counterexample :
    fin6.fields = [⟨['p'], ['q'], ['z'], some "ENL"⟩] ∧
    calculateCrossProduct ⟨['p'], 0, 0, some "ENL"⟩ ⟨['q'], 0, 2, some "ENL"⟩
        ⟨['z'], 1, 1, some "ENL"⟩ =
      calculateCrossProduct ⟨['p'], 0, 0, some "ENL"⟩ ⟨['q'], 0, 2, some "ENL"⟩
        ⟨['b'], 1, 1, some "ENL"⟩ ∧
    specTieBreakWinner
        [⟨['p'], ['q'], ['z'], some "ENL", 2⟩, ⟨['p'], ['q'], ['b'], some "ENL", 2⟩] =
      some ⟨['p'], ['q'], ['b'], some "ENL", 2⟩ ∧
    keyLE ['b'] ['z'] = true ∧ (['z'] : List Char) ≠ ['b'] := by
  decide

/-- C8 (counterexample).  The claim asserts `removeLinksAttachedTo` deletes
no link between two other portals.  In `st8` the link `{ab, c}` is stored;
removing the links attached to the distinct portal `a` deletes it, because
the JS test is substring containment of `a` in the key string `ab-c`. -/
theorem C8_counterexample :
    getLinkKey ['a', 'b'] ['c'] ∈ st8.links ∧
    (removeLinksAttachedTo st8 ['a']).1.links = [] ∧
    (['a'] : List Char) ≠ ['a', 'b'] ∧ (['a'] : List Char) ≠ ['c'] := by
  decide

/-- C2 (code evaluated at the failing input).  `#parseIngressData` carries
the feed guid in `cords.id`, but `#saveToDB` keys the `portals` row and the
`actions` references by `cords.name`: for a portal whose name differs from
its guid, the persisted primary key is the name, contradicting the
documented schema intent (`id = guid`). -/
theorem C2_persisted_key_is_name :
    (savedPortalRow (formatPortal ⟨"guid123.16", 50123456, 8123456, "Fountain",
        "Street 1", "RESISTANCE"⟩)).id = "Fountain" ∧
    (formatPortal ⟨"guid123.16", 50123456, 8123456, "Fountain", "Street 1",
        "RESISTANCE"⟩).id = "guid123.16" ∧
    savedActionRef (some (formatPortal ⟨"guid123.16", 50123456, 8123456, "Fountain",
        "Street 1", "RESISTANCE"⟩)) = some "Fountain" ∧
    ("Fountain" : String) ≠ "guid123.16" := by
  refine ⟨rfl, rfl, rfl, by decide⟩

/-- C9 (determinism).  Replaying equal normalized action sequences against
two fresh simulators built from equal portal catalogs yields identical
snapshots.  In this embedding `processAction` is a pure function of the
state and the action — the JS class has no other inputs (`Map`/`Set`
iteration follows insertion order, `Array.sort` is stable, and no source of
randomness or time is consulted) — so determinism is the congruence of
`replay`. -/
theorem C9_determinism (catalog1 catalog2 : List PortalIn) (acts1 acts2 : List Action)
    (hc : catalog1 = catalog2) (ha : acts1 = acts2) :
    getCurrentState (replay (initSim catalog1) acts1) =
      getCurrentState (replay (initSim catalog2) acts2) := by
  rw [hc, ha]

/-- C9 witness: a concrete double replay. -/
theorem C9_determinism_witness :
    getCurrentState (replay (initSim [⟨['A'], 0, 0⟩]) [mkCapture "e" ['A']]) =
      getCurrentState (replay (initSim [⟨['A'], 0, 0⟩]) [mkCapture "e" ['A']]) :=
  C9_determinism [⟨['A'], 0, 0⟩] [⟨['A'], 0, 0⟩] [mkCapture "e" ['A']]
    [mkCapture "e" ['A']] rfl rfl

/-- C3 (amended).  For a resonator-destruction action on a catalog portal
with stored count `c0`, the new stored count is `c0 - 1` when `c0 > 0` and
`7` when `c0 = 0`: the JS `get(p1Id) || 8` treats a stored 0 as absent and
decrements from the default 8, so the count is not `max (c0 - 1) 0`. -/
theorem C3_amended (st : SimState) (a : Action) (s1 : List Char) (c0 : Nat)
    (hty : a.type = "reso") (hact : a.action = destroyV)
    (hid : a.portal_id = some s1) (hhas : mhas st.portalStates s1 = true)
    (hc : mfind st.portalResonators s1 = some c0) :
    mfind (processAction st a).1.portalResonators s1 =
      some (if c0 = 0 then 7 else c0 - 1) := by
  rw [processAction_eq_reso st a hact hty, resoDestroy_spec st a s1 hid hhas]
  dsimp only
  rw [hc]
  simp only [Option.getD_some]
  by_cases h0 : (if c0 = 0 then 7 else c0 - 1) = 0
  · have hle : (if c0 = 0 then 7 else c0 - 1) ≤ 2 := by
      rw [h0]
      exact Nat.zero_le 2
    rw [if_pos hle, if_pos h0, setPortalTeam_resonators]
    dsimp only
    rw [removeLinks_resonators]
    dsimp only
    rw [mfind_mset_self, h0]
  · by_cases hle : (if c0 = 0 then 7 else c0 - 1) ≤ 2
    · rw [if_pos hle, if_neg h0]
      dsimp only
      rw [removeLinks_resonators]
      dsimp only
      rw [mfind_mset_self]
    · rw [if_neg hle, if_neg h0]
      dsimp only
      rw [mfind_mset_self]

/-- C3 witness: a fresh catalog portal (stored count 0) destroyed once ends
at count 7. -/
theorem C3_amended_witness :
    mfind (processAction (initSim [⟨['A'], 0, 0⟩])
        (mkResoDestroy "e1" ['A'])).1.portalResonators ['A'] =
      some (if 0 = 0 then 7 else 0 - 1) :=
  C3_amended (initSim [⟨['A'], 0, 0⟩]) (mkResoDestroy "e1" ['A']) ['A'] 0
    rfl rfl rfl (by decide) (by decide)

/-- C4 (amended).  The resonator-destroy threshold does hold for the target
portal of the destruction: when the updated count is ≤ 2,
`removeLinksAttachedTo` runs and afterwards no stored link key contains the
portal id (in particular no incident link survives).  The claimed *global*
invariant fails because link insertion never checks resonator counts
(see the counterexample). -/
theorem C4_amended (st : SimState) (a : Action) (s1 : List Char) (c0 : Nat)
    (hty : a.type = "reso") (hact : a.action = destroyV)
    (hid : a.portal_id = some s1) (hhas : mhas st.portalStates s1 = true)
    (hc : mfind st.portalResonators s1 = some c0)
    (hth : (if c0 = 0 then 7 else c0 - 1) ≤ 2) :
    ((processAction st a).1.links.all fun k => !(jsIncludes s1 k)) = true := by
  rw [processAction_eq_reso st a hact hty, resoDestroy_spec st a s1 hid hhas]
  dsimp only
  rw [hc]
  simp only [Option.getD_some]
  rw [if_pos hth]
  by_cases h0 : (if c0 = 0 then 7 else c0 - 1) = 0
  · rw [if_pos h0, setPortalTeam_links]
    dsimp only
    rw [removeLinks_links, List.all_eq_true]
    intro k hk
    exact (List.mem_filter.mp hk).2
  · rw [if_neg h0]
    dsimp only
    rw [removeLinks_links, List.all_eq_true]
    intro k hk
    exact (List.mem_filter.mp hk).2

/-- C4 witness: destroying a resonator on portal `A` (count 3 → 2) in a
state with the stored link `{A, B}` leaves no key containing `A`. -/
theorem C4_amended_witness :
    ((processAction stC4 (mkResoDestroy "e1" ['A'])).1.links.all
      fun k => !(jsIncludes ['A'] k)) = true :=
  C4_amended stC4 (mkResoDestroy "e1" ['A']) ['A'] 3 rfl rfl rfl
    (by decide) (by decide) (by decide)

/-- C8 (amended).  `removeLinksAttachedTo` keeps exactly the stored keys
that do *not* contain the portal id as a substring: every incident link
(either endpoint equal to the portal) is deleted and the residual-field
scrub leaves no field touching the portal — but, because the test is
substring containment on the joined key, a link between two *other*
portals can also be deleted (see the counterexample). -/
theorem C8_amended (st : SimState) (p : List Char) :
    (removeLinksAttachedTo st p).1.links =
      st.links.filter (fun k => !(jsIncludes p k)) ∧
    (∀ a b, (a = p ∨ b = p) →
      getLinkKey a b ∉ (removeLinksAttachedTo st p).1.links) ∧
    (∀ f ∈ (removeLinksAttachedTo st p).1.fields,
      f.p1 ≠ p ∧ f.p2 ≠ p ∧ f.p3 ≠ p) := by
  refine ⟨removeLinks_links st p, ?_, removeLinks_fields_clean st p⟩
  intro a b hab hmem
  rw [removeLinks_links st p] at hmem
  have hinc : jsIncludes p (getLinkKey a b) = true := by
    rcases hab with rfl | rfl
    · exact jsIncludes_getLinkKey_left _ _
    · exact jsIncludes_getLinkKey_right _ _
  have hpred := (List.mem_filter.mp hmem).2
  simp [hinc] at hpred

/-- The initial state stores no link. -/
theorem LinksWellFormed_init (c : List PortalIn) : LinksWellFormed (initSim c) := by
  intro k hk
  exact absurd hk (List.not_mem_nil k)

/-- One step preserves well-formed links, provided the step's own link
action (if it is one) names two catalog portals. -/
theorem LinksWellFormed_step (st : SimState) (a : Action)
    (hwf : LinksWellFormed st)
    (hlink : ∀ s1 s2, a.type = "link" → a.portal_id = some s1 →
      a.target_portal_id = some s2 →
      mhas st.portalStates s1 = true ∧ mhas st.portalStates s2 = true) :
    LinksWellFormed (processAction st a).1 := by
  intro k hk
  rcases processAction_links_cases st a k hk with hold | ⟨hty, s1, s2, t, h1, h2, ht, hkey⟩
  · obtain ⟨x, y, hx, hy, hxy⟩ := hwf k hold
    exact ⟨x, y, by rw [processAction_mhas]; exact hx,
      by rw [processAction_mhas]; exact hy, hxy⟩
  · obtain ⟨hs1, hs2⟩ := hlink s1 s2 hty h1 h2
    exact ⟨s1, s2, by rw [processAction_mhas]; exact hs1,
      by rw [processAction_mhas]; exact hs2, hkey⟩

theorem replay_mhas (st : SimState) (acts : List Action) (k : List Char) :
    mhas (replay st acts).portalStates k = mhas st.portalStates k := by
  induction acts generalizing st with
  | nil => rfl
  | cons a rest ih =>
    show mhas (replay (processAction st a).1 rest).portalStates k = _
    rw [ih]
    exact processAction_mhas st a k

/-- C1 (amended).  The endpoint-existence invariant I1/P1 holds for every
reachable state *provided* every `link_*` action of the log names two
catalog portals; unconditionally it fails, because `processAction` checks
the two ids only for truthiness before inserting the key (see the
counterexample, where a link between two unknown ids is stored). -/
theorem C1_amended (catalog : List PortalIn) (acts : List Action)
    (hlink : ∀ a ∈ acts, ∀ s1 s2, a.type = "link" → a.portal_id = some s1 →
      a.target_portal_id = some s2 →
      mhas (initSim catalog).portalStates s1 = true ∧
      mhas (initSim catalog).portalStates s2 = true) :
    LinksWellFormed (replay (initSim catalog) acts) := by
  suffices hgen : ∀ (acts2 : List Action) (st : SimState), LinksWellFormed st →
      (∀ k, mhas st.portalStates k = mhas (initSim catalog).portalStates k) →
      (∀ a ∈ acts2, ∀ s1 s2, a.type = "link" → a.portal_id = some s1 →
        a.target_portal_id = some s2 →
        mhas (initSim catalog).portalStates s1 = true ∧
        mhas (initSim catalog).portalStates s2 = true) →
      LinksWellFormed (replay st acts2) by
    exact hgen acts (initSim catalog) (LinksWellFormed_init catalog)
      (fun k => rfl) hlink
  intro acts2
  induction acts2 with
  | nil =>
    intro st hwf _ _
    exact hwf
  | cons a rest ih =>
    intro st hwf hkeys hl
    show LinksWellFormed (replay (processAction st a).1 rest)
    apply ih
    · apply LinksWellFormed_step st a hwf
      intro s1 s2 hty h1 h2
      obtain ⟨hs1, hs2⟩ := hl a (List.mem_cons_self a rest) s1 s2 hty h1 h2
      exact ⟨by rw [hkeys s1]; exact hs1, by rw [hkeys s2]; exact hs2⟩
    · intro k
      rw [processAction_mhas]
      exact hkeys k
    · intro a2 ha2
      exact hl a2 (List.mem_cons_of_mem a ha2)

/-- C1 witness: one well-aimed link action on a two-portal catalog — the
link is stored and the invariant holds. -/
theorem C1_amended_witness :
    getLinkKey ['A'] ['B'] ∈
      (replay (initSim [⟨['A'], 0, 0⟩, ⟨['B'], 1, 1⟩])
        [mkLink "e1" ['A'] ['B']]).links ∧
    LinksWellFormed (replay (initSim [⟨['A'], 0, 0⟩, ⟨['B'], 1, 1⟩])
      [mkLink "e1" ['A'] ['B']]) :=
  ⟨by decide, C1_amended [⟨['A'], 0, 0⟩, ⟨['B'], 1, 1⟩] [mkLink "e1" ['A'] ['B']]
    (by
      intro a ha s1 s2 hty h1 h2
      rw [List.mem_singleton] at ha
      subst ha
      injection h1 with h1
      injection h2 with h2
      subst h1
      subst h2
      exact ⟨by decide, by decide⟩)⟩

/-- C7.  The returned flag is true exactly when the action visibly changed
the state (some portal's team, the link set or the field list differs);
in particular a reinforcement deploy (acting faction already owns the
portal) returns false, and a resonator destruction whose updated count
stays above 2 (hence also above 0) returns false. -/
theorem C7_visible_change (st : SimState) (a : Action) :
    ((processAction st a).2 = true ↔ ¬ visibleEq (processAction st a).1 st) ∧
    (∀ t s1 cs, teamOf a = some t → a.type ≠ "link" →
      ¬(a.action = destroyV ∧ a.type = "reso") →
      jsStartsWith wonV a.action = false →
      a.portal_id = some s1 → mfind st.portalStates s1 = some cs →
      cs.team = some t → (processAction st a).2 = false) ∧
    (∀ s1 c0, a.action = destroyV → a.type = "reso" → a.portal_id = some s1 →
      mhas st.portalStates s1 = true → mfind st.portalResonators s1 = some c0 →
      2 < (if c0 = 0 then 7 else c0 - 1) → (processAction st a).2 = false) := by
  refine ⟨⟨processAction_flag_true st a, ?_⟩, ?_, ?_⟩
  · intro hnv
    cases hflag : (processAction st a).2 with
    | true => rfl
    | false => exact absurd (processAction_flag_false st a hflag) hnv
  · intro t s1 cs ht hlink hrd hwon hid hcs hteam
    rw [processAction_eq_deploy st a hlink hrd hwon]
    unfold deploySection
    rw [ht, hid]
    dsimp only
    by_cases hs : (!s1.isEmpty) = true
    · rw [if_pos hs, hcs]
      dsimp only
      by_cases hv : (jsIncludes deployV a.action ||
          jsIncludes capturedV a.action) = true
      · rw [if_pos hv]
        have hflip : ¬(cs.team ≠ some "NEUTRAL" ∧ cs.team ≠ some t) := by
          intro hcon
          exact hcon.2 hteam
        rw [if_neg hflip]
        have hneu : ¬(cs.team = some "NEUTRAL") := by
          rw [hteam]
          intro hq
          exact teamOf_ne_neutral a (ht.trans hq)
        rw [if_neg hneu]
      · rw [if_neg hv]
    · rw [if_neg hs]
  · intro s1 c0 hact hty hid hhas hc hgt
    rw [processAction_eq_reso st a hact hty, resoDestroy_spec st a s1 hid hhas]
    dsimp only
    rw [hc]
    simp only [Option.getD_some]
    have hnle : ¬((if c0 = 0 then 7 else c0 - 1) ≤ 2) := by omega
    have hn0 : ¬((if c0 = 0 then 7 else c0 - 1) = 0) := by omega
    rw [if_neg hnle, if_neg hn0]
    rfl

/-- C10.  A portal-neutralization action (`type = 'portal'`,
`action = 'destroy'`) is an exact no-op returning false: it matches none of
the dispatch branches and the deploy section's verb test fails on
`destroy`.  Moreover no action other than a resonator destruction
(`type = 'reso'`, `action = 'destroy'`) can turn a non-NEUTRAL portal
NEUTRAL: every other branch writes only `teamOf`-produced factions, which
are never `NEUTRAL`. -/
theorem C10_portal_destroy (st : SimState) (a : Action) :
    (a.type = "portal" → a.action = destroyV → processAction st a = (st, false)) ∧
    (∀ k p p', mfind st.portalStates k = some p →
      mfind (processAction st a).1.portalStates k = some p' →
      p'.team = some "NEUTRAL" → p.team ≠ some "NEUTRAL" →
      a.type = "reso" ∧ a.action = destroyV) := by
  constructor
  · intro hty hact
    have hl : a.type ≠ "link" := by
      rw [hty]
      decide
    have hrd : ¬(a.action = destroyV ∧ a.type = "reso") := by
      intro hcon
      rw [hty] at hcon
      exact absurd hcon.2 (by decide)
    have hw : jsStartsWith wonV a.action = false := by
      rw [hact]
      decide
    rw [processAction_eq_deploy st a hl hrd hw]
    have hverb : (jsIncludes deployV a.action ||
        jsIncludes capturedV a.action) = false := by
      rw [hact]
      decide
    unfold deploySection
    rcases teamOf a with _ | t
    · rcases a.portal_id with _ | s1
      · rfl
      · rfl
    · rcases a.portal_id with _ | s1
      · rfl
      · dsimp only
        by_cases hs : (!s1.isEmpty) = true
        · rw [if_pos hs]
          rcases mfind st.portalStates s1 with _ | cs
          · rfl
          · dsimp only
            rw [hverb, if_neg Bool.false_ne_true]
        · rw [if_neg hs]
  · intro k p p' hp hp' hneu hpneu
    by_cases hld : a.type = "link" ∧ a.action = destroyV
    · rw [processAction_eq_linkDestroy st a hld.1 hld.2, eLD_portalStates] at hp'
      rw [hp] at hp'
      have hpp := Option.some.inj hp'
      exact absurd (by rw [hpp]; exact hneu) hpneu
    · by_cases hrd : a.action = destroyV ∧ a.type = "reso"
      · exact ⟨hrd.2, hrd.1⟩
      · by_cases hl : a.type = "link"
        · rw [processAction_eq_link st a hl (fun hd => hld ⟨hl, hd⟩)] at hp'
          rcases link_mfind_cases _ _ a k p' hp' with hc | hc
          · rcases deploy_mfind_cases st a k p' hc with hd | hd
            · rw [hp] at hd
              have hpp := Option.some.inj hd
              exact absurd (by rw [hpp]; exact hneu) hpneu
            · obtain ⟨t, ht, hteam⟩ := hd
              rw [hteam] at hneu
              exact absurd (ht.trans hneu) (teamOf_ne_neutral a)
          · obtain ⟨t, ht, hteam⟩ := hc
            rw [hteam] at hneu
            exact absurd (ht.trans hneu) (teamOf_ne_neutral a)
        · cases hw : jsStartsWith wonV a.action with
          | true =>
            rw [processAction_eq_beacon st a hl hrd hw] at hp'
            rcases beacon_mfind_cases _ _ a k p' hp' with hc | hc
            · rcases deploy_mfind_cases st a k p' hc with hd | hd
              · rw [hp] at hd
                have hpp := Option.some.inj hd
                exact absurd (by rw [hpp]; exact hneu) hpneu
              · obtain ⟨t, ht, hteam⟩ := hd
                rw [hteam] at hneu
                exact absurd (ht.trans hneu) (teamOf_ne_neutral a)
            · rw [hc] at hneu
              exact absurd hneu (teamOf_ne_neutral a)
          | false =>
            rw [processAction_eq_deploy st a hl hrd hw] at hp'
            rcases deploy_mfind_cases st a k p' hp' with hd | hd
            · rw [hp] at hd
              have hpp := Option.some.inj hd
              exact absurd (by rw [hpp]; exact hneu) hpneu
            · obtain ⟨t, ht, hteam⟩ := hd
              rw [hteam] at hneu
              exact absurd (ht.trans hneu) (teamOf_ne_neutral a)

/-- C6 (amended).  With both endpoints in the catalog,
`detectAndCreateFields` appends exactly the per-side winners: nothing when
there is no common neighbour, and at most one stripped field per side
(`winnerList` drops the auxiliary `area`); the winner of a side is the
candidate of maximal `|cross|` area, with ties going to the *earliest
encountered* candidate (every strictly earlier candidate has strictly
smaller area) — not to the lexicographically smallest neighbour id claimed
by the spec (see the counterexample). -/
theorem C6_amended (st : SimState) (id1 id2 : List Char) (tm : Option String)
    (p1 p2 : PState) (h1 : mfind st.portalStates id1 = some p1)
    (h2 : mfind st.portalStates id2 = some p2) :
    ((commonNeighborsOf st id1 id2).isEmpty = true →
      (detectAndCreateFields st id1 id2 tm).1.fields = st.fields) ∧
    ((commonNeighborsOf st id1 id2).isEmpty = false →
      (detectAndCreateFields st id1 id2 tm).1.fields =
        st.fields ++ winnerList (sideCandidates st p1 p2 id1 id2 tm).1
          ++ winnerList (sideCandidates st p1 p2 id1 id2 tm).2) ∧
    (∀ l, (winnerList l).length ≤ 1) ∧
    (∀ l w, pickLargest l = some w →
      ∃ lo hi, l = lo ++ w :: hi ∧ (∀ d ∈ l, d.area ≤ w.area) ∧
        ∀ d ∈ lo, d.area < w.area) := by
  refine ⟨?_, ?_, ?_, ?_⟩
  · intro hempty
    unfold detectAndCreateFields
    rw [h1, h2]
    dsimp only
    rw [if_pos hempty]
  · intro hnon
    unfold detectAndCreateFields
    rw [h1, h2]
    dsimp only
    rw [if_neg (by rw [hnon]; exact Bool.false_ne_true)]
  · intro l
    unfold winnerList
    rcases pickLargest l with _ | w <;> simp
  · intro l w hw
    cases l with
    | nil => exact Option.noConfusion hw
    | cons c cs =>
      obtain ⟨l1, w2, l2, heq, hpick, hmax, hlt⟩ := pickLargest_spec c cs
      rw [hw] at hpick
      obtain rfl := Option.some.inj hpick
      exact ⟨l1, l2, heq, hmax, hlt⟩

/-- C6 witness: the characterization at the concrete two-portal state. -/
theorem C6_amended_witness :
    ((commonNeighborsOf st6w ['P'] ['Q']).isEmpty = true →
      (detectAndCreateFields st6w ['P'] ['Q'] (some "ENL")).1.fields =
        st6w.fields) ∧
    ((commonNeighborsOf st6w ['P'] ['Q']).isEmpty = false →
      (detectAndCreateFields st6w ['P'] ['Q'] (some "ENL")).1.fields =
        st6w.fields ++
          winnerList (sideCandidates st6w p6w1 p6w2 ['P'] ['Q'] (some "ENL")).1
          ++ winnerList (sideCandidates st6w p6w1 p6w2 ['P'] ['Q']
            (some "ENL")).2) ∧
    (∀ l, (winnerList l).length ≤ 1) ∧
    (∀ l w, pickLargest l = some w →
      ∃ lo hi, l = lo ++ w :: hi ∧ (∀ d ∈ l, d.area ≤ w.area) ∧
        ∀ d ∈ lo, d.area < w.area) :=
  C6_amended st6w ['P'] ['Q'] (some "ENL") p6w1 p6w2 (by decide) (by decide)

/-- C5 (amended).  Provided every catalog identifier is free of the `-`
separator, every reachable state's link set is pairwise non-crossing in the
claim's sense: for two distinct stored links with four distinct catalog
endpoints, the segments do not properly intersect (strictly opposite cross
signs on both segments), because the insertion sweep splits each stored key
on `-` into the correct endpoint pair and deletes every properly crossing
link.  With a dash-bearing catalog id the key decomposition is wrong and
the invariant fails (see the counterexample). -/
theorem C5_amended (catalog : List PortalIn) (acts : List Action)
    (hdf : ∀ p ∈ catalog, dashFree p.id) :
    NoCrossing (replay (initSim catalog) acts) := by
  suffices hgen : ∀ (acts2 : List Action) (st : SimState),
      IdsConsistent st → CatalogDashFree st → NoCrossing st →
      NoCrossing (replay st acts2) by
    exact hgen acts (initSim catalog) (IdsConsistent_init catalog)
      (CatalogDashFree_init catalog hdf) (NoCrossing_init catalog)
  intro acts2
  induction acts2 with
  | nil =>
    intro st _ _ hN
    exact hN
  | cons a rest ih =>
    intro st hI hC hN
    show NoCrossing (replay (processAction st a).1 rest)
    exact ih _ (IdsConsistent_step st a hI) (CatalogDashFree_step st a hC)
      (NoCrossing_step st a hI hC hN)

/-- C5 witness: the invariant at a concrete dash-free two-link replay. -/
theorem C5_amended_witness :
    NoCrossing (replay (initSim [⟨['A'], 0, 0⟩, ⟨['B'], 1, 1⟩, ⟨['C'], 0, 2⟩])
      [mkLink "e1" ['A'] ['B'], mkLink "e2" ['B'] ['C']]) :=
  C5_amended [⟨['A'], 0, 0⟩, ⟨['B'], 1, 1⟩, ⟨['C'], 0, 2⟩]
    [mkLink "e1" ['A'] ['B'], mkLink "e2" ['B'] ['C']] (by decide)

end CheapIce
